import Mathlib

set_option maxRecDepth 100000

/-!
Verification development for the fitx schedule relay (src/app).

The Python modules `models.py`, `parser.py`, `ics.py`, `store.py` and
`main.py` are shallowly embedded below.  Modelling conventions:

* Timezone-aware datetimes are represented by their instant, an integer
  count of epoch seconds (`DT := Int`).  The program normalises every
  datetime to Europe/Berlin; the civil (wall-clock) Berlin fields of an
  instant are recovered with an explicit model of the Europe/Berlin zone
  (CET/CEST, last-Sunday-of-March/October rule, `fold=0` disambiguation),
  mirroring what `zoneinfo.ZoneInfo("Europe/Berlin")` computes.
  Sub-second precision (only reachable through millisecond epochs) is
  truncated to whole seconds.
* Byte payloads are conflated with their replacement-decoded UTF-8 text
  (`bytes.decode("utf-8", errors="replace")` never raises and is injective
  enough for every property below).
* The third-party JSON codec is modelled by an executable JSON reader
  (`jsonLoads`); JSON numbers with a fraction or exponent are outside the
  model.  BeautifulSoup's script-tag extraction is modelled by passing the
  list of script tags of the document explicitly to `parse_schedule`.
* Python `or`-chains are modelled with explicit truthiness (`None`, `""`,
  `0`, `[]` are falsy), matching the source.
-/

namespace Fitx

/-! ## Basic string and list utilities -/

abbrev DT := Int

/-- Lower-case a string character-wise (model of Python `str.lower` on the
ASCII inputs this program meets). -/
def lowerStr (s : String) : String := ⟨s.data.map Char.toLower⟩

/-- Python whitespace for `str.strip`. -/
def isPySpace (c : Char) : Bool :=
  c = ' ' || c = '\t' || c = '\n' || c = '\x0d' || c = '\x0b' || c = '\x0c'

def stripL (l : List Char) : List Char :=
  (l.dropWhile isPySpace).reverse.dropWhile isPySpace |>.reverse

/-- Model of Python `str.strip()`. -/
def stripS (s : String) : String := ⟨stripL s.data⟩

/-- `needle` occurs as a contiguous substring of `hay` (Python `in` on str). -/
def containsSub (hay needle : List Char) : Bool :=
  decide (needle <:+: hay)

def containsSubS (hay needle : String) : Bool := containsSub hay.data needle.data

/-- Lexicographic comparison on char lists by code point, the order Python
uses for `str` comparison. -/
def listLe : List Char → List Char → Bool
  | [], _ => true
  | _ :: _, [] => false
  | a :: as, b :: bs => if a < b then true else if b < a then false else listLe as bs

def strLe (a b : String) : Bool := listLe a.data b.data

/-- Replace every occurrence of a single character by a replacement string
(Python `str.replace` with a one-character pattern). -/
def replChar (p : Char) (r : List Char) : List Char → List Char
  | [] => []
  | c :: t => (if c = p then r else [c]) ++ replChar p r t

/-- Split a char list on a separator character (Python `str.split(",")`). -/
def splitOnChar (sep : Char) : List Char → List (List Char)
  | [] => [[]]
  | c :: t =>
    let rest := splitOnChar sep t
    if c = sep then [] :: rest
    else match rest with
      | [] => [[c]]
      | h :: hs => (c :: h) :: hs

/-- The character of one decimal digit. -/
def digitChar : Nat → Char
  | 0 => '0' | 1 => '1' | 2 => '2' | 3 => '3' | 4 => '4'
  | 5 => '5' | 6 => '6' | 7 => '7' | 8 => '8' | _ => '9'

def natDigitsGo : Nat → Nat → List Char → List Char
  | 0, _, acc => acc
  | fuel + 1, n, acc =>
    if n < 10 then digitChar n :: acc
    else natDigitsGo fuel (n / 10) (digitChar (n % 10) :: acc)

/-- Decimal digits of a natural number, most significant first (the fuel
bounds the digit count). -/
def natDigits (n : Nat) : List Char := natDigitsGo (n + 1) n []

/-- Decimal rendering of an integer (Python `str` on `int`). -/
def intRepr (n : Int) : String :=
  if n < 0 then ⟨'-' :: natDigits (-n).toNat⟩ else ⟨natDigits n.toNat⟩

def digitVal (c : Char) : Option Nat :=
  if '0' ≤ c ∧ c ≤ '9' then some (c.toNat - 48) else none

/-- Parse a Python `int(...)` literal: optional surrounding whitespace,
optional sign, one or more decimal digits. -/
def pyIntOfString (s : String) : Option Int :=
  let l := stripL s.data
  match l with
  | '-' :: rest => (digitsToNat rest).map (fun n => -(n : Int))
  | '+' :: rest => (digitsToNat rest).map (fun n => (n : Int))
  | rest => (digitsToNat rest).map (fun n => (n : Int))
where
  digitsToNat : List Char → Option Nat
    | [] => none
    | l => go l 0
  go : List Char → Nat → Option Nat
    | [], acc => some acc
    | c :: t, acc =>
      match digitVal c with
      | some d => go t (acc * 10 + d)
      | none => none

/-! ## Proleptic Gregorian calendar and the Europe/Berlin zone -/

def isLeap (y : Nat) : Bool := (y % 4 = 0 && y % 100 ≠ 0) || y % 400 = 0

def daysInMonth (y m : Nat) : Nat :=
  if m = 2 then (if isLeap y then 29 else 28)
  else if m = 4 ∨ m = 6 ∨ m = 9 ∨ m = 11 then 30
  else 31

def daysInYear (y : Nat) : Nat := if isLeap y then 366 else 365

/-- Number of leap years `k` with `1 ≤ k ≤ n`. -/
def leapsLe (n : Nat) : Nat := n / 4 - n / 100 + n / 400

/-- Days from 0001-01-01 up to the first day of year `y`. -/
def daysBeforeYear (y : Nat) : Nat := 365 * (y - 1) + leapsLe (y - 1)

def daysBeforeMonthBase : Nat → Nat
  | 1 => 0 | 2 => 31 | 3 => 59 | 4 => 90 | 5 => 120 | 6 => 151
  | 7 => 181 | 8 => 212 | 9 => 243 | 10 => 273 | 11 => 304 | 12 => 334
  | _ => 365

/-- Days of year `y` that precede the first day of month `m` (1-based);
`m = 13` gives the length of the year. -/
def daysBeforeMonth (y m : Nat) : Nat :=
  daysBeforeMonthBase m + (if 3 ≤ m ∧ isLeap y then 1 else 0)

/-- A civil (wall-clock) timestamp, second precision. -/
structure Civil where
  year : Nat
  month : Nat
  day : Nat
  hour : Nat
  minute : Nat
  second : Nat
deriving DecidableEq, Repr

/-- Validity of a civil timestamp in Python `datetime`'s domain. -/
def civilValid (c : Civil) : Prop :=
  1 ≤ c.year ∧ c.year ≤ 9999 ∧ 1 ≤ c.month ∧ c.month ≤ 12 ∧
  1 ≤ c.day ∧ c.day ≤ daysInMonth c.year c.month ∧
  c.hour ≤ 23 ∧ c.minute ≤ 59 ∧ c.second ≤ 59

instance (c : Civil) : Decidable (civilValid c) := by
  unfold civilValid; infer_instance

/-- Ordinal day index of a civil date: days since 0001-01-01. -/
def ordinalDay (c : Civil) : Nat :=
  daysBeforeYear c.year + daysBeforeMonth c.year c.month + (c.day - 1)

/-- Days from 0001-01-01 to 1970-01-01, times 86400: the offset between the
ordinal-day clock and the Unix epoch. -/
def epochShift : Int := 62135596800

/-- Epoch seconds of a civil timestamp read as UTC. -/
def epochUTC (c : Civil) : Int :=
  86400 * (ordinalDay c : Int) - epochShift
    + 3600 * (c.hour : Int) + 60 * (c.minute : Int) + (c.second : Int)

def minEpoch : Int := -62135596800
def maxEpoch : Int := 253402300799

/-- Linear year search, 400-year strides. -/
def findYearCoarse (N : Nat) : Nat → Nat → Nat
  | y, 0 => y
  | y, fuel + 1 => if N < daysBeforeYear (y + 400) then y else findYearCoarse N (y + 400) fuel

/-- Linear year search, single-year steps. -/
def findYearFine (N : Nat) : Nat → Nat → Nat
  | y, 0 => y
  | y, fuel + 1 => if N < daysBeforeYear (y + 1) then y else findYearFine N (y + 1) fuel

/-- The year containing ordinal day `N`. -/
def findYear (N : Nat) : Nat :=
  findYearFine N (findYearCoarse N 1 25) 400

/-- The (month, day-of-month minus 1) containing day `r` of year `y`. -/
def findMonth (y r : Nat) : Nat × Nat :=
  if r < daysBeforeMonth y 2 then (1, r) else
  if r < daysBeforeMonth y 3 then (2, r - daysBeforeMonth y 2) else
  if r < daysBeforeMonth y 4 then (3, r - daysBeforeMonth y 3) else
  if r < daysBeforeMonth y 5 then (4, r - daysBeforeMonth y 4) else
  if r < daysBeforeMonth y 6 then (5, r - daysBeforeMonth y 5) else
  if r < daysBeforeMonth y 7 then (6, r - daysBeforeMonth y 6) else
  if r < daysBeforeMonth y 8 then (7, r - daysBeforeMonth y 7) else
  if r < daysBeforeMonth y 9 then (8, r - daysBeforeMonth y 8) else
  if r < daysBeforeMonth y 10 then (9, r - daysBeforeMonth y 9) else
  if r < daysBeforeMonth y 11 then (10, r - daysBeforeMonth y 10) else
  if r < daysBeforeMonth y 12 then (11, r - daysBeforeMonth y 11) else
  (12, r - daysBeforeMonth y 12)

/-- UTC civil fields of an instant; `none` outside Python `datetime`'s
range (where `datetime.fromtimestamp` raises). -/
def epochToCivilUTC (t : Int) : Option Civil :=
  if t < minEpoch ∨ maxEpoch < t then none
  else
    let n : Nat := (t + epochShift).toNat
    let N := n / 86400
    let tod := n % 86400
    let y := findYear N
    let r := N - daysBeforeYear y
    let md := findMonth y r
    some ⟨y, md.1, md.2 + 1, tod / 3600, tod % 3600 / 60, tod % 60⟩

/-- Day-of-month of the last Sunday of a 31-day month `m` of year `y`
(0001-01-01 is a Monday; weekday 6 is Sunday). -/
def lastSunday (y m : Nat) : Nat :=
  let dow31 := (daysBeforeYear y + daysBeforeMonth y m + 30) % 7
  31 - (dow31 + 1) % 7

/-- UTC instant at which Berlin switches to CEST in year `y`
(last Sunday of March, 01:00 UTC). -/
def cutMar (y : Nat) : Int := epochUTC ⟨y, 3, lastSunday y 3, 1, 0, 0⟩

/-- UTC instant at which Berlin switches back to CET in year `y`
(last Sunday of October, 01:00 UTC). -/
def cutOct (y : Nat) : Int := epochUTC ⟨y, 10, lastSunday y 10, 1, 0, 0⟩

/-- Whether CEST (daylight saving) is in force at an instant. -/
def inDST (t : Int) : Bool :=
  match epochToCivilUTC t with
  | none => false
  | some c => cutMar c.year ≤ t && t < cutOct c.year

/-- UTC offset of Europe/Berlin at an instant, in seconds. -/
def utcOffset (t : Int) : Int := if inDST t then 7200 else 3600

/-- Berlin civil fields of an instant (`astimezone(ZoneInfo("Europe/Berlin"))`). -/
def toBerlinCivil (t : Int) : Option Civil := epochToCivilUTC (t + utcOffset t)

/-- UTC offset Europe/Berlin assigns to a naive wall-clock reading, with
`fold=0` disambiguation: on the spring transition day wall times before
03:00 take the pre-transition CET offset, on the autumn day wall times
before 03:00 take the pre-transition CEST offset. -/
def localBerlinOffset (c : Civil) : Int :=
  if epochUTC ⟨c.year, 3, lastSunday c.year 3, 3, 0, 0⟩ ≤ epochUTC c ∧
     epochUTC c < epochUTC ⟨c.year, 10, lastSunday c.year 10, 3, 0, 0⟩
  then 7200 else 3600

/-- Instant of a naive civil reading interpreted in Europe/Berlin
(`replace(tzinfo=BERLIN)`, `fold=0`). -/
def epochOfBerlinCivil (c : Civil) : Int := epochUTC c - localBerlinOffset c

/-! ## JSON values -/

/-!
A parsed JSON value (numbers restricted to integers: floating-point
literals are outside the model).  Arrays and objects are mutual inductives
so every traversal below is plain structural recursion.
-/
mutual

inductive JVal where
  | jnull
  | jbool (b : Bool)
  | jint (n : Int)
  | jstr (s : String)
  | jarr (items : JArr)
  | jobj (fields : JObj)

inductive JArr where
  | nil
  | cons (hd : JVal) (tl : JArr)

inductive JObj where
  | nil
  | cons (key : String) (val : JVal) (tl : JObj)

end

def JArr.ofList : List JVal → JArr
  | [] => .nil
  | v :: t => .cons v (JArr.ofList t)

def JArr.toList : JArr → List JVal
  | .nil => []
  | .cons v t => v :: JArr.toList t

def JObj.ofList : List (String × JVal) → JObj
  | [] => .nil
  | (k, v) :: t => .cons k v (JObj.ofList t)

def JObj.toList : JObj → List (String × JVal)
  | .nil => []
  | .cons k v t => (k, v) :: JObj.toList t

/-- A raw candidate record: the fields of a JSON object, insertion order,
unique keys. -/
abbrev JRec := List (String × JVal)

/-- First-match field lookup (`dict.get`; the parser below keeps keys
unique). -/
def recGet (r : JRec) (k : String) : Option JVal :=
  (r.find? (fun p => p.1 = k)).map (·.2)

/-- Insert with Python `dict` semantics: an existing key keeps its position
and takes the new value, a fresh key is appended. -/
def dictInsert (r : JRec) (k : String) (v : JVal) : JRec :=
  if (r.find? (fun p => p.1 = k)).isSome then
    r.map (fun p => if p.1 = k then (k, v) else p)
  else r ++ [(k, v)]

/-- Python truthiness of a JSON value. -/
def truthy : JVal → Bool
  | .jnull => false
  | .jbool b => b
  | .jint n => n ≠ 0
  | .jstr s => s ≠ ""
  | .jarr .nil => false
  | .jarr (.cons _ _) => true
  | .jobj .nil => false
  | .jobj (.cons _ _ _) => true

/-- Python `str(...)` of a JSON value.  Containers get a simplified
bracketed rendering (no claim depends on string coercion of containers). -/
def pyStr : JVal → String
  | .jnull => "None"
  | .jbool b => if b then "True" else "False"
  | .jint n => intRepr n
  | .jstr s => s
  | .jarr _ => "[...]"
  | .jobj _ => "\x7b...\x7d"

/-- Python `int(...)` of a JSON value: `none` where `int` raises. -/
def pyInt : JVal → Option Int
  | .jnull => none
  | .jbool b => some (if b then 1 else 0)
  | .jint n => some n
  | .jstr s => pyIntOfString s
  | .jarr _ => none
  | .jobj _ => none

/-! ## JSON reader (model of `json.loads`) -/

def jsonWs (c : Char) : Bool := c = ' ' || c = '\t' || c = '\n' || c = '\x0d'

def skipWs (l : List Char) : List Char := l.dropWhile jsonWs

def hexVal (c : Char) : Option Nat :=
  if '0' ≤ c ∧ c ≤ '9' then some (c.toNat - 48)
  else if 'a' ≤ c ∧ c ≤ 'f' then some (c.toNat - 87)
  else if 'A' ≤ c ∧ c ≤ 'F' then some (c.toNat - 55)
  else none

/-- Read the body of a JSON string literal after the opening quote. -/
def readJString : List Char → Option (List Char × List Char)
  | [] => none
  | '"' :: rest => some ([], rest)
  | '\\' :: '"' :: rest => (readJString rest).map (fun p => ('"' :: p.1, p.2))
  | '\\' :: '\\' :: rest => (readJString rest).map (fun p => ('\\' :: p.1, p.2))
  | '\\' :: '/' :: rest => (readJString rest).map (fun p => ('/' :: p.1, p.2))
  | '\\' :: 'b' :: rest => (readJString rest).map (fun p => ('\x08' :: p.1, p.2))
  | '\\' :: 'f' :: rest => (readJString rest).map (fun p => ('\x0c' :: p.1, p.2))
  | '\\' :: 'n' :: rest => (readJString rest).map (fun p => ('\n' :: p.1, p.2))
  | '\\' :: 'r' :: rest => (readJString rest).map (fun p => ('\x0d' :: p.1, p.2))
  | '\\' :: 't' :: rest => (readJString rest).map (fun p => ('\t' :: p.1, p.2))
  | '\\' :: 'u' :: a :: b :: c :: d :: rest =>
    (match hexVal a, hexVal b, hexVal c, hexVal d with
     | some ha, some hb, some hc, some hd =>
       (readJString rest).map
         (fun p => (Char.ofNat (((ha * 16 + hb) * 16 + hc) * 16 + hd) :: p.1, p.2))
     | _, _, _, _ => none)
  | '\\' :: _ => none
  | c :: rest =>
    if c.toNat < 32 then none
    else (readJString rest).map (fun p => (c :: p.1, p.2))

/-- Read a JSON integer literal (optional minus, no leading zeros); fails
when a fraction or exponent follows (floats are outside the model). -/
def readJInt (l : List Char) : Option (Int × List Char) :=
  match l with
  | '-' :: rest => (readNat rest).map (fun p => (-(p.1 : Int), p.2))
  | rest => (readNat rest).map (fun p => ((p.1 : Int), p.2))
where
  readNat : List Char → Option (Nat × List Char)
    | '0' :: rest =>
      if noCont rest then some (0, rest) else none
    | c :: rest =>
      match digitVal c with
      | some d =>
        let p := takeDigits rest d
        if noCont p.2 then some p else none
      | none => none
    | [] => none
  takeDigits : List Char → Nat → Nat × List Char
    | c :: rest, acc =>
      match digitVal c with
      | some d => takeDigits rest (acc * 10 + d)
      | none => (acc, c :: rest)
    | [], acc => (acc, [])
  noCont : List Char → Bool
    | c :: _ => !(c = '.' || c = 'e' || c = 'E')
    | [] => true

mutual

/-- Read one JSON value (fuel bounds nesting depth). -/
def readJVal : Nat → List Char → Option (JVal × List Char)
  | 0, _ => none
  | fuel + 1, l =>
    match skipWs l with
    | 'n' :: 'u' :: 'l' :: 'l' :: rest => some (.jnull, rest)
    | 't' :: 'r' :: 'u' :: 'e' :: rest => some (.jbool true, rest)
    | 'f' :: 'a' :: 'l' :: 's' :: 'e' :: rest => some (.jbool false, rest)
    | '"' :: rest => (readJString rest).map (fun p => (.jstr ⟨p.1⟩, p.2))
    | '[' :: rest =>
      (match skipWs rest with
       | ']' :: r => some (.jarr .nil, r)
       | r => (readJItems fuel r).map (fun p => (.jarr (JArr.ofList p.1), p.2)))
    | '\x7b' :: rest =>
      (match skipWs rest with
       | '\x7d' :: r => some (.jobj .nil, r)
       | r =>
         (readJMembers fuel r).map
           (fun p =>
             (.jobj (JObj.ofList (p.1.foldl (fun acc kv => dictInsert acc kv.1 kv.2) [])),
              p.2)))
    | l' => (readJInt l').map (fun p => (.jint p.1, p.2))

/-- Read comma-separated array items up to the closing bracket. -/
def readJItems : Nat → List Char → Option (List JVal × List Char)
  | 0, _ => none
  | fuel + 1, l => do
    let (v, rest) ← readJVal fuel l
    match skipWs rest with
    | ',' :: r =>
      let (vs, rest') ← readJItems fuel r
      pure (v :: vs, rest')
    | ']' :: r => pure ([v], r)
    | _ => none

/-- Read comma-separated object members up to the closing brace, keeping
the raw key order (duplicates collapsed by the caller with `dictInsert`,
giving `dict` semantics: first position, last value). -/
def readJMembers : Nat → List Char → Option (List (String × JVal) × List Char)
  | 0, _ => none
  | fuel + 1, l =>
    match skipWs l with
    | '"' :: rest => do
      let (k, rest) ← readJString rest
      match skipWs rest with
      | ':' :: r => do
        let (v, rest') ← readJVal fuel r
        match skipWs rest' with
        | ',' :: r' =>
          let (fs, rest'') ← readJMembers fuel r'
          pure ((⟨k⟩, v) :: fs, rest'')
        | '\x7d' :: r' => pure ([(⟨k⟩, v)], r')
        | _ => none
      | _ => none
    | _ => none

end

/-- Model of `json.loads` on decoded text. -/
def jsonLoads (s : String) : Option JVal :=
  match readJVal (s.length + 1) s.data with
  | some (v, rest) => if skipWs rest = [] then some v else none
  | none => none

/-! ## Datetime parsing (`_parse_iso`, `_parse_epoch`, `parse_any_datetime`) -/

/-- Read exactly `n` decimal digits. -/
def readDigits : Nat → List Char → Option (Nat × List Char)
  | 0, l => some (0, l)
  | n + 1, c :: rest =>
    match digitVal c with
    | some d => (readDigits n rest).map (fun p => (d * 10 ^ n + p.1, p.2))
    | none => none
  | _ + 1, [] => none

def expectCh (c : Char) : List Char → Option (List Char)
  | x :: rest => if x = c then some rest else none
  | [] => none

/-- Read a UTC-offset suffix: `Z`, `±HH`, `±HHMM`, `±HH:MM` or `±HH:MM:SS`,
returning the offset in seconds.  Covers the offset shapes accepted by
`datetime.fromisoformat` and by the `%z` fallback formats. -/
def readOffset (l : List Char) : Option (Int × List Char) :=
  match l with
  | 'Z' :: rest => some (0, rest)
  | s :: rest =>
    if s = '+' ∨ s = '-' then do
      let (hh, r1) ← readDigits 2 rest
      if hh > 23 then none else
      let (subSecs, r2) ←
        (match r1 with
         | ':' :: r => do
             let (mm, r') ← readDigits 2 r
             if mm > 59 then none else
             match r' with
             | ':' :: r'' => do
               let (ss, r3) ← readDigits 2 r''
               if ss > 59 then none else pure (mm * 60 + ss, r3)
             | _ => pure (mm * 60, r')
         | c :: r =>
           (match digitVal c with
            | some _ => do
              let (mm, r') ← readDigits 2 (c :: r)
              if mm > 59 then none else pure (mm * 60, r')
            | none => pure (0, c :: r))
         | [] => pure (0, []))
      let total : Int := 3600 * hh + subSecs
      pure (if s = '-' then -total else total, r2)
    else none
  | [] => none

/-- Read `HH:MM` or `HH:MM:SS` (seconds default 0, as in ISO 8601). -/
def readTime (l : List Char) : Option ((Nat × Nat × Nat) × List Char) := do
  let (h, r1) ← readDigits 2 l
  let r2 ← expectCh ':' r1
  let (mi, r3) ← readDigits 2 r2
  match r3 with
  | ':' :: r4 => do
    let (s, r5) ← readDigits 2 r4
    pure ((h, mi, s), r5)
  | _ => pure ((h, mi, 0), r3)

/-- Parse the datetime string shapes the program accepts: a
`YYYY-MM-DD` date, optionally followed by a `T` or space separator and
`HH:MM[:SS]`, optionally followed by a UTC offset.  This is the union of
`datetime.fromisoformat` (after the `Z` replacement) and the explicit
`strptime` fallback formats in `_parse_iso`; fractional seconds are
outside the model.  Returns the civil reading and the offset (if any). -/
def readIsoDatetime (l : List Char) : Option (Civil × Option Int) := do
  let (y, r1) ← readDigits 4 l
  let r2 ← expectCh '-' r1
  let (mo, r3) ← readDigits 2 r2
  let r4 ← expectCh '-' r3
  let (d, r5) ← readDigits 2 r4
  let withTime : Option ((Nat × Nat × Nat) × List Char) :=
    match r5 with
    | 'T' :: r6 => readTime r6
    | ' ' :: r6 => readTime r6
    | _ => none
  let (tparts, r7) ←
    (match withTime with
     | some p => some p
     | none => if r5 = [] then some ((0, 0, 0), []) else none)
  let (off, r8) ←
    (match r7 with
     | [] => some ((none : Option Int), ([] : List Char))
     | l' => (readOffset l').map (fun p => (some p.1, p.2)))
  if r8 = [] then
    let c : Civil := ⟨y, mo, d, tparts.1, tparts.2.1, tparts.2.2⟩
    if civilValid c then pure (c, off) else none
  else none

/-- Model of `_parse_iso`: strip, replace `Z` with `+00:00`, parse; an
offset-aware result is converted to Europe/Berlin (instant preserved, and
out of `datetime`'s range the conversion raises, yielding `none`); a naive
result is stamped with Europe/Berlin (`fold=0`). -/
def parse_iso (val : JVal) : Option DT :=
  match val with
  | .jstr s =>
    let l := replChar 'Z' "+00:00".data (stripL s.data)
    match readIsoDatetime l with
    | some (c, some off) =>
      let t := epochUTC c - off
      if (toBerlinCivil t).isSome then some t else none
    | some (c, none) => some (epochOfBerlinCivil c)
    | none => none
  | _ => none

/-- Model of `_parse_epoch`: integer coercion, the milliseconds heuristic
(magnitude above 10^12 is divided by 1000; the fractional part such a
division can produce in Python is truncated here), then
`fromtimestamp(..., utc).astimezone(BERLIN)`, which raises (`none`) outside
`datetime`'s range. -/
def parse_epoch (val : JVal) : Option DT := do
  let v ← pyInt val
  let v' := if v > 1000000000000 then v / 1000 else v
  if (epochToCivilUTC v').isSome ∧ (toBerlinCivil v').isSome then pure v' else none

/-- Model of `parse_any_datetime`: `_parse_iso(val) or _parse_epoch(val)`. -/
def parse_any_datetime (val : JVal) : Option DT :=
  (parse_iso val).orElse (fun _ => parse_epoch val)

/-! ## The event model (`models.py`) -/

/-- `CourseEvent` with instants for `start`/`end` (`end` is a Lean keyword,
hence `end_`). -/
structure CourseEvent where
  id : String
  title : String
  start : DT
  end_ : DT
  location : Option String := none
  instructor : Option String := none
  room : Option String := none
  description : Option String := none
deriving DecidableEq, Repr

/-! ## Candidate extraction and coercion (`parser.py`) -/

def EVENT_KEYS : List String :=
  ["events", "appointments", "schedule", "courseSchedule", "times", "sessions", "payload"]

/-!
Model of `extract_events_from_json`: walk the tree; at every object, first
collect the dict-typed items of every `EVENT_KEYS` field that holds a list,
then keep descending into all values.
-/
mutual

def extractVal : JVal → List JRec
  | .jobj fields =>
    (EVENT_KEYS.flatMap (fun k =>
      match recGet (JObj.toList fields) k with
      | some (.jarr its) =>
        its.toList.filterMap (fun it => match it with | .jobj f => some (JObj.toList f) | _ => none)
      | _ => [])) ++
    extractObjVals fields
  | .jarr items => extractArrVals items
  | _ => []

def extractArrVals : JArr → List JRec
  | .nil => []
  | .cons v t => extractVal v ++ extractArrVals t

def extractObjVals : JObj → List JRec
  | .nil => []
  | .cons _ v t => extractVal v ++ extractObjVals t

end

def extract_events_from_json (data : JVal) : List JRec := extractVal data

/-- Field access as `it.get(k)` sees it: an absent key and a stored JSON
`null` are both Python `None`. -/
def getJ (it : JRec) (k : String) : JVal := (recGet it k).getD .jnull

/-- First truthy value of a Python `or`-chain, else the final default. -/
def firstTruthy (xs : List JVal) (dflt : JVal) : JVal :=
  match xs.find? truthy with
  | some v => v
  | none => dflt

/-- `_coerce_str`: `None` stays absent, strings pass through, anything else
is `str(...)`-coerced. -/
def coerce_str (v : JVal) : Option String :=
  match v with
  | .jnull => none
  | .jstr s => some s
  | v => some (pyStr v)

/-- A Python `a or b or ... or None` chain over already-coerced optional
strings: the first non-empty string, else `none`. -/
def firstTruthyStr (xs : List (Option String)) : Option String :=
  match xs with
  | [] => none
  | x :: rest =>
    match x with
    | some s => if s ≠ "" then some s else firstTruthyStr rest
    | none => firstTruthyStr rest

/-- The start-field chain of `coerce_event`. -/
def startChain (it : JRec) : Option DT :=
  (["start", "startTime", "startDate", "startDateTime",
    "begin", "from", "date", "dateStart"].map (fun k => parse_any_datetime (getJ it k))).foldr
    (fun a b => a.orElse (fun _ => b)) none

/-- The end-field chain of `coerce_event`. -/
def endChain (it : JRec) : Option DT :=
  (["end", "endTime", "endDate", "endDateTime", "to", "dateEnd"].map
    (fun k => parse_any_datetime (getJ it k))).foldr
    (fun a b => a.orElse (fun _ => b)) none

/-- The duration lookup of `coerce_event`: the first of
`durationMinutes`, `duration`, `length`, `minutes` that is present and
passes `int(...)` (a failed conversion falls through to the next name). -/
def durChain (it : JRec) : Option Int :=
  (["durationMinutes", "duration", "length", "minutes"].map
    (fun k => pyInt (getJ it k))).foldr (fun a b => a.orElse (fun _ => b)) none

/-- Model of `coerce_event`.  `start + timedelta(minutes=m)` is modelled as
a shift of the instant by `60 * m` seconds (exact except when the shift
crosses a DST transition, where Python's wall-clock arithmetic deviates by
the offset change; no claim depends on that window). -/
def coerce_event (it : JRec) : Option CourseEvent :=
  let titleJ := firstTruthy
    [getJ it "title", getJ it "name", getJ it "courseName", getJ it "course"]
    (.jstr "FitX Course")
  match startChain it with
  | none => none
  | some start =>
    let end_ :=
      match endChain it with
      | some e => e
      | none =>
        match durChain it with
        | some d => if d ≠ 0 then start + 60 * d else start + 3600
        | none => start + 3600
    let cid := pyStr (firstTruthy [getJ it "id", getJ it "eventId", getJ it "uid"]
      (.jstr (pyStr titleJ ++ "-" ++ intRepr start)))
    let location := firstTruthyStr
      [coerce_str (getJ it "location"), coerce_str (getJ it "place"),
       coerce_str (getJ it "studio")]
    let instructor := firstTruthyStr
      [coerce_str (getJ it "instructor"), coerce_str (getJ it "trainer"),
       coerce_str (getJ it "coach")]
    let room := firstTruthyStr [coerce_str (getJ it "room"), coerce_str (getJ it "hall")]
    let description := firstTruthyStr
      [coerce_str (getJ it "description"), coerce_str (getJ it "details")]
    some ⟨cid, pyStr titleJ, start, end_, location, instructor, room, description⟩

/-! ## Deduplication and ordering (`_build_events_from_obj`) -/

/-- The deduplication key `(e.id, int(e.start.timestamp()),
int(e.end.timestamp()))`; instants already are integer seconds here. -/
def dedupKey (e : CourseEvent) : String × Int × Int := (e.id, e.start, e.end_)

/-- The sort key comparison `(e.start, e.title)`: Python compares aware
datetimes by instant, then strings lexicographically. -/
def eventLe (a b : CourseEvent) : Bool :=
  if a.start < b.start then true
  else if b.start < a.start then false
  else strLe a.title b.title

/-- Stable insertion of `a` into a sorted list: `a` goes in front of the
first element it is `le`-below-or-equal, so earlier-processed elements with
an equal key stay in front.  A stable insertion sort computes the same
list as Python's (stable) `sorted`. -/
def insertStable (le : CourseEvent → CourseEvent → Bool) (a : CourseEvent) :
    List CourseEvent → List CourseEvent
  | [] => [a]
  | b :: t => if le a b then a :: b :: t else b :: insertStable le a t

/-- Stable insertion sort (the function Python's stable `sorted` computes). -/
def sortStable (le : CourseEvent → CourseEvent → Bool) : List CourseEvent → List CourseEvent
  | [] => []
  | a :: t => insertStable le a (sortStable le t)

/-- One step of the `uniq` dict build: update in place or append. -/
def dedupInsert (acc : List ((String × Int × Int) × CourseEvent)) (e : CourseEvent) :
    List ((String × Int × Int) × CourseEvent) :=
  if (acc.find? (fun p => p.1 = dedupKey e)).isSome then
    acc.map (fun p => if p.1 = dedupKey e then (p.1, e) else p)
  else acc ++ [(dedupKey e, e)]

/-- Model of `_build_events_from_obj`: coerce every candidate, deduplicate
by `(id, start, end)` with last-seen-wins `dict` semantics, sort by
`(start, title)`. -/
def _build_events_from_obj (obj : JVal) : List CourseEvent :=
  let events := (extract_events_from_json obj).filterMap coerce_event
  let uniq := events.foldl dedupInsert []
  sortStable eventLe (uniq.map (·.2))

/-! ## Top-level dispatch (`parse_schedule`) -/

/-- A `<script>` element as BeautifulSoup reports it: its `type` attribute
and its text content.  HTML parsing itself is third-party; `parse_schedule`
takes the script list of the decoded document as an explicit argument. -/
structure ScriptTag where
  typeAttr : Option String
  content : String

inductive ParseError where
  | undecodable
  | noEvents
deriving DecidableEq, Repr

instance {ε α : Type} [DecidableEq ε] [DecidableEq α] : DecidableEq (Except ε α) :=
  fun a b =>
    match a, b with
    | .ok x, .ok y => if h : x = y then .isTrue (by rw [h]) else .isFalse (by simp [h])
    | .error x, .error y => if h : x = y then .isTrue (by rw [h]) else .isFalse (by simp [h])
    | .ok _, .error _ => .isFalse (by simp)
    | .error _, .ok _ => .isFalse (by simp)

/-- The candidate chunks the fallback regex `(\x7b.*?\x7d|\[.*?\])` (with
DOTALL) finds in one script text: at each position, a `\x7b` with a later
`\x7d` (or a `[` with a later `]`) yields the shortest such chunk and the
scan resumes after it; otherwise the scan advances one character. -/
def splitAtClose (cl : Char) : List Char → Option (List Char × List Char)
  | [] => none
  | x :: t =>
    if x = cl then some ([], t)
    else (splitAtClose cl t).map (fun p => (x :: p.1, p.2))

def chunkScanF : Nat → List Char → List (List Char)
  | 0, _ => []
  | _, [] => []
  | fuel + 1, c :: rest =>
    if c = '\x7b' then
      match splitAtClose '\x7d' rest with
      | some (inside, after) => (c :: (inside ++ ['\x7d'])) :: chunkScanF fuel after
      | none => chunkScanF fuel rest
    else if c = '[' then
      match splitAtClose ']' rest with
      | some (inside, after) => (c :: (inside ++ [']'])) :: chunkScanF fuel after
      | none => chunkScanF fuel rest
    else chunkScanF fuel rest

/-- Scan one script text for candidate chunks (fuel is the text length:
every step strictly shortens the remaining text). -/
def chunkScan (l : List Char) : List (List Char) := chunkScanF l.length l

/-- Stable descending-by-length sort of the candidate chunks
(`candidates.sort(key=len, reverse=True)`: Python's sort is stable and
`reverse=True` keeps equal-length chunks in scan order). -/
def insertLenDesc (a : List Char) : List (List Char) → List (List Char)
  | [] => [a]
  | b :: t => if b.length ≤ a.length then a :: b :: t else b :: insertLenDesc a t

def sortLenDesc : List (List Char) → List (List Char)
  | [] => []
  | a :: t => insertLenDesc a (sortLenDesc t)

/-- The typed-script pass: the first script whose `type` attribute contains
"json" and whose stripped text parses as JSON yielding at least one event. -/
def typedScriptPass (scripts : List ScriptTag) : Option (List CourseEvent) :=
  scripts.findSome? (fun sc =>
    let t := lowerStr (sc.typeAttr.getD "")
    if containsSubS t "json" then
      let content := stripS sc.content
      if content = "" then none
      else
        match jsonLoads content with
        | some obj =>
          let events := _build_events_from_obj obj
          if events.isEmpty then none else some events
        | none => none
    else none)

/-- The permissive fallback pass: collect chunks of at least 10 characters
from every stripped script text, sort by length descending, try the first
50. -/
def scanPass (scripts : List ScriptTag) : Option (List CourseEvent) :=
  let candidates := scripts.flatMap (fun sc =>
    let s := stripL sc.content.data
    if s.isEmpty then []
    else (chunkScan s).filter (fun chunk => 10 ≤ chunk.length))
  ((sortLenDesc candidates).take 50).findSome? (fun c =>
    match jsonLoads ⟨c⟩ with
    | some obj =>
      let events := _build_events_from_obj obj
      if events.isEmpty then none else some events
    | none => none)

/-- Model of `parse_schedule`.  The byte payload is its replacement-decoded
text (`decode("utf-8", errors="replace")` never fails, and yields the empty
string exactly on the empty payload); `scripts` is what BeautifulSoup
reports for that text. -/
def parse_schedule (data : String) (content_type : Option String)
    (scripts : List ScriptTag) : Except ParseError (List CourseEvent) :=
  let ct := lowerStr (content_type.getD "")
  let looksJson := containsSubS ct "application/json" ||
    data.data.head? = some '\x7b' || data.data.head? = some '['
  match (if looksJson then jsonLoads data else none) with
  | some obj => .ok (_build_events_from_obj obj)
  | none =>
    if data = "" then .error .undecodable
    else
      match typedScriptPass scripts with
      | some events => .ok events
      | none =>
        match scanPass scripts with
        | some events => .ok events
        | none => .error .noEvents

/-! ## Calendar feed generator (`ics.py`) -/

/-- Stage 1 of `_escape_ics`: `.replace("\\", "\\\\")` (one backslash
becomes two). -/
def escBackslash (l : List Char) : List Char := replChar '\\' ['\\', '\\'] l

/-- Stage 2: `.replace(";", "\\;")`. -/
def escSemi (l : List Char) : List Char := replChar ';' ['\\', ';'] l

/-- Stage 3: `.replace(",", "\\,")`. -/
def escComma (l : List Char) : List Char := replChar ',' ['\\', ','] l

/-- Stage 4: `.replace("\r\n", "\\n")` — a two-character pattern, replaced
left to right without overlap. -/
def escCRLF : List Char → List Char
  | [] => []
  | [c] => [c]
  | c :: d :: t =>
    if c = '\x0d' ∧ d = '\n' then '\\' :: 'n' :: escCRLF t
    else c :: escCRLF (d :: t)

/-- Stage 5: `.replace("\n", "\\n")`. -/
def escLF (l : List Char) : List Char := replChar '\n' ['\\', 'n'] l

/-- Model of `_escape_ics`: the five chained `str.replace` calls. -/
def _escape_ics (s : String) : String :=
  ⟨escLF (escCRLF (escComma (escSemi (escBackslash s.data))))⟩

/-- What the specification says one character becomes: backslash doubled,
semicolon, comma and lone LF escaped, anything else untouched. -/
def escSpecChar (c : Char) : List Char :=
  if c = '\\' then ['\\', '\\']
  else if c = ';' then ['\\', ';']
  else if c = ',' then ['\\', ',']
  else if c = '\n' then ['\\', 'n']
  else [c]

/-- Single-pass escaping as the specification words it: each CRLF pair and
each remaining character escaped once, the backslash case first so no
character is escaped twice.  (`_escape_ics` is proved equal to this.) -/
def escSpec : List Char → List Char
  | [] => []
  | [c] => escSpecChar c
  | c :: d :: t =>
    if c = '\x0d' ∧ d = '\n' then '\\' :: 'n' :: escSpec t
    else escSpecChar c ++ escSpec (d :: t)

def foldGo : Nat → List Char → List (List Char)
  | 0, l => [l]
  | fuel + 1, l =>
    if l.length ≤ 75 then [l]
    else l.take 75 :: foldGo fuel (' ' :: l.drop 75)

/-- Model of `_fold_line` at the character-list level: chop 75 characters
and prefix the remainder with one space, repeatedly (every step removes 74
characters, so the length is enough fuel). -/
def foldL (l : List Char) : List (List Char) := foldGo l.length l

def _fold_line (line : String) : List String := (foldL line.data).map (fun l => ⟨l⟩)

def _vtz_europe_berlin : List String :=
  ["BEGIN:VTIMEZONE",
   "TZID:Europe/Berlin",
   "X-LIC-LOCATION:Europe/Berlin",
   "BEGIN:DAYLIGHT",
   "TZOFFSETFROM:+0100",
   "TZOFFSETTO:+0200",
   "TZNAME:CEST",
   "DTSTART:19700329T020000",
   "RRULE:FREQ=YEARLY;BYMONTH=3;BYDAY=-1SU",
   "END:DAYLIGHT",
   "BEGIN:STANDARD",
   "TZOFFSETFROM:+0200",
   "TZOFFSETTO:+0100",
   "TZNAME:CET",
   "DTSTART:19701025T030000",
   "RRULE:FREQ=YEARLY;BYMONTH=10;BYDAY=-1SU",
   "END:STANDARD",
   "END:VTIMEZONE"]

def pad2 (n : Nat) : List Char := [digitChar (n / 10 % 10), digitChar (n % 10)]

def pad4 (n : Nat) : List Char :=
  [digitChar (n / 1000 % 10), digitChar (n / 100 % 10),
   digitChar (n / 10 % 10), digitChar (n % 10)]

/-- `%Y%m%dT%H%M%S` of a civil timestamp. -/
def fmtBasic (c : Civil) : String :=
  ⟨pad4 c.year ++ pad2 c.month ++ pad2 c.day ++ 'T' ::
    (pad2 c.hour ++ pad2 c.minute ++ pad2 c.second)⟩

/-- Model of `_fmt_dt_utc` (the instant is in `datetime`'s range whenever
the program calls this). -/
def _fmt_dt_utc (t : DT) : String :=
  fmtBasic ((epochToCivilUTC t).getD ⟨1, 1, 1, 0, 0, 0⟩) ++ "Z"

/-- Model of `_fmt_local`: Berlin wall-clock fields, no suffix. -/
def _fmt_local (t : DT) : String :=
  fmtBasic ((toBerlinCivil t).getD ⟨1, 1, 1, 0, 0, 0⟩)

/-- Keep an optional string only when Python finds it truthy
(`if ev.instructor:`). -/
def optTruthy : Option String → Option String
  | some s => if s = "" then none else some s
  | none => none

/-- Join with `"\n".join(...)`. -/
def joinLF (parts : List String) : String :=
  ⟨List.intercalate ['\n'] (parts.map String.data)⟩

/-- The logical (pre-folding) lines of one VEVENT block. -/
def eventBlock (course_id : Int) (now : DT) (ev : CourseEvent) : List String :=
  ["BEGIN:VEVENT",
   "UID:fitx-" ++ (intRepr course_id ++ ("-" ++ (_escape_ics ev.id ++ "@local"))),
   "DTSTAMP:" ++ _fmt_dt_utc now,
   "DTSTART;TZID=Europe/Berlin:" ++ _fmt_local ev.start,
   "DTEND;TZID=Europe/Berlin:" ++ _fmt_local ev.end_,
   "SUMMARY:" ++ _escape_ics ev.title] ++
  (let desc_parts :=
    (match optTruthy ev.instructor with
     | some i => ["Instructor: " ++ i]
     | none => []) ++
    (match optTruthy ev.room with
     | some r => ["Room: " ++ r]
     | none => []) ++
    (match optTruthy ev.description with
     | some d => [d]
     | none => [])
   if desc_parts.isEmpty then []
   else ["DESCRIPTION:" ++ _escape_ics (joinLF desc_parts)]) ++
  (match optTruthy ev.location with
   | some loc => ["LOCATION:" ++ _escape_ics loc]
   | none => []) ++
  ["END:VEVENT"]

/-- The logical lines of the whole document, before folding. -/
def icsLogicalLines (course_id : Int) (events : List CourseEvent) (now : DT) :
    List String :=
  ["BEGIN:VCALENDAR",
   "PRODID:-//fitx-local//ics//EN",
   "VERSION:2.0",
   "CALSCALE:GREGORIAN",
   "METHOD:PUBLISH"] ++
  _vtz_europe_berlin ++
  (sortStable eventLe events).flatMap (eventBlock course_id now) ++
  ["END:VCALENDAR"]

/-- The physical lines: every logical line folded. -/
def icsPhysicalLines (course_id : Int) (events : List CourseEvent) (now : DT) :
    List String :=
  (icsLogicalLines course_id events now).flatMap _fold_line

/-- Model of `generate_ics` (the ambient `datetime.now(utc)` is the `now`
argument): folded lines joined by CRLF with a trailing CRLF. -/
def generate_ics (course_id : Int) (events : List CourseEvent) (now : DT) : String :=
  ⟨List.intercalate ['\x0d', '\n'] ((icsPhysicalLines course_id events now).map String.data)
    ++ ['\x0d', '\n']⟩

/-! ## Cache store (`store.py`) -/

/-- One record of the on-disk JSON array. -/
structure StoredEvent where
  id : String
  title : String
  start : String
  end_ : String
  location : Option String
  instructor : Option String
  room : Option String
  description : Option String
deriving DecidableEq, Repr

/-- The two cache files.  `atomic_write` (temp file, fsync, rename) makes
each write all-or-nothing; the model keeps the resulting whole-file
contents. -/
structure Disk where
  icsFile : Option String
  jsonFile : Option (List StoredEvent)
deriving DecidableEq, Repr

/-- `e.start.isoformat()` of a Berlin-normalised instant:
`YYYY-MM-DDTHH:MM:SS+HH:MM`. -/
def isoformatBerlin (t : DT) : String :=
  let c := (toBerlinCivil t).getD ⟨1, 1, 1, 0, 0, 0⟩
  let off := utcOffset t
  ⟨pad4 c.year ++ '-' :: pad2 c.month ++ '-' :: pad2 c.day ++ 'T' ::
    pad2 c.hour ++ ':' :: pad2 c.minute ++ ':' :: pad2 c.second ++
    '+' :: pad2 (off / 3600).toNat ++ ':' :: pad2 ((off % 3600) / 60).toNat⟩

def storedOfEvent (e : CourseEvent) : StoredEvent :=
  ⟨e.id, e.title, isoformatBerlin e.start, isoformatBerlin e.end_,
   e.location, e.instructor, e.room, e.description⟩

/-- Model of `save_cache`: rewrite both files in full. -/
def save_cache (events : List CourseEvent) (ics_text : String) (d : Disk) : Disk :=
  ⟨some ics_text, some (events.map storedOfEvent)⟩

/-- `datetime.fromisoformat(s).astimezone(tz)` on a stored timestamp: an
offset-aware reading keeps its instant; a naive reading is interpreted in
the process timezone (Europe/Berlin, set by `main.py`). -/
def loadInstant (s : String) : Option DT :=
  match readIsoDatetime s.data with
  | some (c, some off) => some (epochUTC c - off)
  | some (c, none) => some (epochOfBerlinCivil c)
  | none => none

def loadStored (r : StoredEvent) : Option CourseEvent := do
  let start ← loadInstant r.start
  let end_ ← loadInstant r.end_
  pure ⟨r.id, r.title, start, end_, r.location, r.instructor, r.room, r.description⟩

/-- Model of `load_cache`: each file independently; any per-record failure
discards the whole event list (the `except` around the loop). -/
def load_cache (d : Disk) : Option String × Option (List CourseEvent) :=
  (d.icsFile,
   match d.jsonFile with
   | some recs => recs.mapM loadStored
   | none => none)

/-! ## Service / scheduler (`main.py`) -/

/-- Model of `_parse_exclude_keywords`: split on commas, strip, lower,
drop empties. -/
def _parse_exclude_keywords (raw : String) : List String :=
  ((splitOnChar ',' raw.data).map (fun part => lowerStr (stripS ⟨part⟩))).filter (· ≠ "")

def DEFAULT_EXCLUDES : String := "booty x,xamba,x step,fatburn x"

def EXCLUDE_KEYWORDS : List String := _parse_exclude_keywords DEFAULT_EXCLUDES

/-- The title filter of `_refresh_once`: keep events whose lower-cased
title contains no configured keyword. -/
def filterEvents (kws : List String) (events : List CourseEvent) : List CourseEvent :=
  events.filter (fun e => !(kws.any (fun k => containsSubS (lowerStr e.title) k)))

/-- The mutable service state: the lock-guarded in-memory pair plus the
on-disk cache. -/
structure AppState where
  cache_ics : Option String
  cache_events : Option (List CourseEvent)
  disk : Disk
deriving DecidableEq, Repr

/-- Model of `_update_cache`: disk first, then the in-memory pair. -/
def _update_cache (events : List CourseEvent) (ics_text : String) (st : AppState) :
    AppState :=
  { cache_ics := some ics_text,
    cache_events := some events,
    disk := save_cache events ics_text st.disk }

/-- Model of `_refresh_once`.  The fetch outcome and the script tags of the
fetched document are inputs (the network is external); `now` is the ambient
UTC instant `generate_ics` reads.  Any raised error leaves the state as it
was (the enclosing `try`/`except` only logs). -/
def _refresh_once (fetchRes : Except String (String × Option String))
    (scripts : List ScriptTag) (kws : List String) (course_id : Int) (now : DT)
    (st : AppState) : AppState :=
  match fetchRes with
  | .error _ => st
  | .ok (data, content_type) =>
    match parse_schedule data content_type scripts with
    | .error _ => st
    | .ok events =>
      let events' := if kws.isEmpty then events else filterEvents kws events
      let ics_text := generate_ics course_id events' now
      _update_cache events' ics_text st

/-- The body served by `GET /calendar.ics`: the cached document when
truthy, else a calendar generated from the cached events (or none). -/
def servedCalendar (course_id : Int) (now : DT) (st : AppState) : String :=
  match st.cache_ics with
  | some s => if s = "" then generate_ics course_id (st.cache_events.getD []) now else s
  | none => generate_ics course_id (st.cache_events.getD []) now

/-! ## Lemmas: text escaping -/

theorem replChar_cons_eq (p : Char) (r : List Char) (t : List Char) :
    replChar p r (p :: t) = r ++ replChar p r t := by
  simp [replChar]

theorem replChar_cons_ne (p : Char) (r : List Char) (c : Char) (t : List Char)
    (h : c ≠ p) : replChar p r (c :: t) = c :: replChar p r t := by
  simp [replChar, h]

/-- What the first three replace stages make of one leading character. -/
def escChunk (c : Char) : List Char :=
  if c = '\\' then ['\\', '\\']
  else if c = ';' then ['\\', ';']
  else if c = ',' then ['\\', ',']
  else [c]

theorem p123_cons (c : Char) (t : List Char) :
    escComma (escSemi (escBackslash (c :: t)))
      = escChunk c ++ escComma (escSemi (escBackslash t)) := by
  by_cases h1 : c = '\\'
  · subst h1
    rw [show escBackslash ('\\' :: t) = '\\' :: '\\' :: escBackslash t from by
      unfold escBackslash; rw [replChar_cons_eq]; rfl]
    unfold escSemi
    rw [replChar_cons_ne _ _ _ _ (by decide), replChar_cons_ne _ _ _ _ (by decide)]
    unfold escComma
    rw [replChar_cons_ne _ _ _ _ (by decide), replChar_cons_ne _ _ _ _ (by decide)]
    rfl
  · by_cases h2 : c = ';'
    · subst h2
      rw [show escBackslash (';' :: t) = ';' :: escBackslash t from by
        unfold escBackslash; rw [replChar_cons_ne _ _ _ _ (by decide)]]
      rw [show escSemi (';' :: escBackslash t)
            = '\\' :: ';' :: escSemi (escBackslash t) from by
        unfold escSemi; rw [replChar_cons_eq]; rfl]
      unfold escComma
      rw [replChar_cons_ne _ _ _ _ (by decide), replChar_cons_ne _ _ _ _ (by decide)]
      rfl
    · by_cases h3 : c = ','
      · subst h3
        rw [show escBackslash (',' :: t) = ',' :: escBackslash t from by
          unfold escBackslash; rw [replChar_cons_ne _ _ _ _ (by decide)]]
        rw [show escSemi (',' :: escBackslash t) = ',' :: escSemi (escBackslash t) from by
          unfold escSemi; rw [replChar_cons_ne _ _ _ _ (by decide)]]
        unfold escComma
        rw [replChar_cons_eq]
        rfl
      · rw [show escBackslash (c :: t) = c :: escBackslash t from by
          unfold escBackslash; rw [replChar_cons_ne _ _ _ _ h1]]
        rw [show escSemi (c :: escBackslash t) = c :: escSemi (escBackslash t) from by
          unfold escSemi; rw [replChar_cons_ne _ _ _ _ h2]]
        unfold escComma
        rw [replChar_cons_ne _ _ _ _ h3]
        simp [escChunk, h1, h2, h3]

theorem escCRLF_nil : escCRLF [] = [] := rfl

theorem escCRLF_cons_ne (c : Char) (l : List Char) (hc : c ≠ '\x0d') :
    escCRLF (c :: l) = c :: escCRLF l := by
  cases l with
  | nil => rfl
  | cons d t =>
    rw [show escCRLF (c :: d :: t)
          = if c = '\x0d' ∧ d = '\n' then '\\' :: 'n' :: escCRLF t
            else c :: escCRLF (d :: t) from rfl]
    rw [if_neg (by simp [hc])]

theorem escCRLF_crlf (t : List Char) :
    escCRLF ('\x0d' :: '\n' :: t) = '\\' :: 'n' :: escCRLF t := by
  rw [show escCRLF ('\x0d' :: '\n' :: t)
        = if '\x0d' = '\x0d' ∧ '\n' = '\n' then '\\' :: 'n' :: escCRLF t
          else '\x0d' :: escCRLF ('\n' :: t) from rfl]
  rw [if_pos (by decide)]

theorem escCRLF_cons_r (l : List Char) (h : l.head? ≠ some '\n') :
    escCRLF ('\x0d' :: l) = '\x0d' :: escCRLF l := by
  cases l with
  | nil => rfl
  | cons d t =>
    have hd : d ≠ '\n' := by intro e; exact h (by simp [e])
    rw [show escCRLF ('\x0d' :: d :: t)
          = if '\x0d' = '\x0d' ∧ d = '\n' then '\\' :: 'n' :: escCRLF t
            else '\x0d' :: escCRLF (d :: t) from rfl]
    rw [if_neg (by simp [hd])]

theorem escLF_cons_ne (c : Char) (t : List Char) (h : c ≠ '\n') :
    escLF (c :: t) = c :: escLF t := by
  unfold escLF; exact replChar_cons_ne _ _ _ _ h

theorem escLF_cons_eq (t : List Char) :
    escLF ('\n' :: t) = '\\' :: 'n' :: escLF t := by
  unfold escLF; rw [replChar_cons_eq]; rfl

theorem escChunk_head_ne (c : Char) (rest : List Char) (hc : c ≠ '\n') :
    (escChunk c ++ rest).head? ≠ some '\n' := by
  unfold escChunk
  by_cases h1 : c = '\\' <;> by_cases h2 : c = ';' <;> by_cases h3 : c = ',' <;>
    simp [h1, h2, h3, hc]

/-- The chained `str.replace` calls of `_escape_ics` compute the single-pass
escaping described by the specification. -/
theorem escape_eq_spec (l : List Char) :
    escLF (escCRLF (escComma (escSemi (escBackslash l)))) = escSpec l := by
  induction l using escSpec.induct with
  | case1 => rfl
  | case2 c =>
    rw [show escSpec [c] = escSpecChar c from rfl]
    rw [p123_cons]
    rw [show escComma (escSemi (escBackslash [])) = [] from rfl]
    rw [List.append_nil]
    by_cases h1 : c = '\\'
    · subst h1; rfl
    · by_cases h2 : c = ';'
      · subst h2; rfl
      · by_cases h3 : c = ','
        · subst h3; rfl
        · by_cases h4 : c = '\n'
          · subst h4; rfl
          · rw [show escChunk c = [c] from by simp [escChunk, h1, h2, h3]]
            rw [show escCRLF [c] = [c] from rfl]
            rw [escLF_cons_ne c [] h4]
            simp [escSpecChar, h1, h2, h3, h4, escLF, replChar]
  | case3 c d t hcd ih =>
    obtain ⟨hc, hd⟩ := hcd
    subst hc; subst hd
    rw [show escSpec ('\x0d' :: '\n' :: t) = '\\' :: 'n' :: escSpec t from by
      rw [show escSpec ('\x0d' :: '\n' :: t)
            = if '\x0d' = '\x0d' ∧ '\n' = '\n' then '\\' :: 'n' :: escSpec t
              else escSpecChar '\x0d' ++ escSpec ('\n' :: t) from rfl]
      rw [if_pos (by decide)]]
    rw [p123_cons, p123_cons]
    rw [show escChunk '\x0d' = ['\x0d'] from rfl, show escChunk '\n' = ['\n'] from rfl]
    simp only [List.singleton_append]
    rw [escCRLF_crlf]
    rw [escLF_cons_ne _ _ (by decide), escLF_cons_ne _ _ (by decide)]
    rw [ih]
  | case4 c d t hcd ih =>
    rw [show escSpec (c :: d :: t)
          = if c = '\x0d' ∧ d = '\n' then '\\' :: 'n' :: escSpec t
            else escSpecChar c ++ escSpec (d :: t) from rfl]
    rw [if_neg hcd]
    rw [p123_cons]
    by_cases h1 : c = '\\'
    · subst h1
      rw [show escChunk '\\' = ['\\', '\\'] from rfl]
      simp only [List.cons_append, List.singleton_append, List.nil_append]
      rw [escCRLF_cons_ne _ _ (by decide), escCRLF_cons_ne _ _ (by decide)]
      rw [escLF_cons_ne _ _ (by decide), escLF_cons_ne _ _ (by decide)]
      rw [ih]
      rfl
    · by_cases h2 : c = ';'
      · subst h2
        rw [show escChunk ';' = ['\\', ';'] from rfl]
        simp only [List.cons_append, List.singleton_append, List.nil_append]
        rw [escCRLF_cons_ne _ _ (by decide), escCRLF_cons_ne _ _ (by decide)]
        rw [escLF_cons_ne _ _ (by decide), escLF_cons_ne _ _ (by decide)]
        rw [ih]
        rfl
      · by_cases h3 : c = ','
        · subst h3
          rw [show escChunk ',' = ['\\', ','] from rfl]
          simp only [List.cons_append, List.singleton_append, List.nil_append]
          rw [escCRLF_cons_ne _ _ (by decide), escCRLF_cons_ne _ _ (by decide)]
          rw [escLF_cons_ne _ _ (by decide), escLF_cons_ne _ _ (by decide)]
          rw [ih]
          rfl
        · by_cases h4 : c = '\n'
          · subst h4
            rw [show escChunk '\n' = ['\n'] from rfl]
            simp only [List.singleton_append]
            rw [escCRLF_cons_ne _ _ (by decide)]
            rw [escLF_cons_eq]
            rw [ih]
            rfl
          · rw [show escChunk c = [c] from by simp [escChunk, h1, h2, h3]]
            simp only [List.singleton_append]
            by_cases h5 : c = '\x0d'
            · subst h5
              have hdn : d ≠ '\n' := fun e => hcd ⟨rfl, e⟩
              rw [escCRLF_cons_r _ (by
                rw [p123_cons]
                exact escChunk_head_ne d _ hdn)]
              rw [escLF_cons_ne _ _ (by decide)]
              rw [ih]
              simp [escSpecChar]
            · rw [escCRLF_cons_ne _ _ h5]
              rw [escLF_cons_ne _ _ h4]
              rw [ih]
              simp [escSpecChar, h1, h2, h3, h4]

/-! ## Lemmas: line folding -/

theorem foldGo_short (fuel : Nat) (l : List Char) (h : l.length ≤ 75) :
    foldGo fuel l = [l] := by
  cases fuel with
  | zero => rfl
  | succ fuel => unfold foldGo; rw [if_pos h]

theorem foldGo_long (fuel : Nat) (l : List Char) (h : ¬ l.length ≤ 75) :
    foldGo (fuel + 1) l = l.take 75 :: foldGo fuel (' ' :: l.drop 75) := by
  conv_lhs => unfold foldGo
  rw [if_neg h]

/-- `l.length` is always enough fuel: each step removes 74 characters. -/
theorem foldGo_length (fuel : Nat) : ∀ l : List Char, l.length ≤ 74 * fuel + 75 →
    ∀ p ∈ foldGo fuel l, p.length ≤ 75 := by
  induction fuel with
  | zero =>
    intro l hl p hp
    rw [foldGo_short 0 l (by omega)] at hp
    simp at hp
    subst hp
    omega
  | succ fuel ih =>
    intro l hl p hp
    by_cases h : l.length ≤ 75
    · rw [foldGo_short _ l h] at hp
      simp at hp
      subst hp
      exact h
    · rw [foldGo_long fuel l h] at hp
      rcases List.mem_cons.mp hp with rfl | hp'
      · simp [List.length_take]
      · exact ih (' ' :: l.drop 75) (by simp [List.length_drop]; omega) p hp'

theorem foldGo_heads (fuel : Nat) : ∀ l : List Char, l.head? = some ' ' →
    ∀ p ∈ foldGo fuel l, p.head? = some ' ' := by
  induction fuel with
  | zero =>
    intro l hl p hp
    simp only [foldGo, List.mem_singleton] at hp
    subst hp
    exact hl
  | succ fuel ih =>
    intro l hl p hp
    by_cases h : l.length ≤ 75
    · rw [foldGo_short _ l h] at hp
      simp at hp; subst hp; exact hl
    · rw [foldGo_long fuel l h] at hp
      rcases List.mem_cons.mp hp with rfl | hp'
      · cases l with
        | nil => simp at h
        | cons c t =>
          simp only [List.head?_cons, Option.some.injEq] at hl
          rw [show (75 : Nat) = 74 + 1 from rfl, List.take_succ_cons]
          simp [hl]
      · exact ih (' ' :: l.drop 75) (by simp) p hp'

theorem foldL_length (l : List Char) : ∀ p ∈ foldL l, p.length ≤ 75 :=
  foldGo_length l.length l (by omega)

theorem foldL_tail_space (l : List Char) : ∀ p ∈ (foldL l).tail, p.head? = some ' ' := by
  by_cases h : l.length ≤ 75
  · rw [show foldL l = [l] from foldGo_short _ _ h]
    intro p hp
    exact absurd (by simpa using hp) (List.not_mem_nil p)
  · cases hl : l.length with
    | zero => omega
    | succ n =>
      rw [show foldL l = foldGo (n + 1) l from by rw [foldL, hl]]
      rw [foldGo_long n l h]
      intro p hp
      exact foldGo_heads n (' ' :: l.drop 75) (by simp) p hp

/-- Rejoin folded lines, stripping the single inserted space from every
continuation line. -/
def unfoldL : List (List Char) → List Char
  | [] => []
  | first :: rest => first ++ rest.flatMap (fun p => p.drop 1)

theorem foldGo_dropAll (fuel : Nat) : ∀ l : List Char, l.length ≤ 74 * fuel + 75 →
    l.head? = some ' ' → (foldGo fuel l).flatMap (fun p => p.drop 1) = l.drop 1 := by
  induction fuel with
  | zero =>
    intro l hl _
    rw [foldGo_short 0 l (by omega)]
    simp
  | succ fuel ih =>
    intro l hl hh
    by_cases h : l.length ≤ 75
    · rw [foldGo_short _ l h]; simp
    · rw [foldGo_long fuel l h]
      rw [List.flatMap_cons, ih (' ' :: l.drop 75) (by simp [List.length_drop]; omega) (by simp)]
      cases l with
      | nil => simp at h
      | cons c t =>
        simp only [List.drop_succ_cons, List.drop_zero, List.take_succ_cons,
          List.drop_one, List.tail_cons]
        exact List.take_append_drop 74 t

theorem unfold_foldL (l : List Char) : unfoldL (foldL l) = l := by
  by_cases h : l.length ≤ 75
  · rw [show foldL l = [l] from foldGo_short _ _ h]; simp [unfoldL]
  · cases hl : l.length with
    | zero => omega
    | succ n =>
      rw [show foldL l = foldGo (n + 1) l from by rw [foldL, hl]]
      rw [foldGo_long n l h]
      rw [show unfoldL (List.take 75 l :: foldGo n (' ' :: List.drop 75 l))
            = List.take 75 l ++ (foldGo n (' ' :: List.drop 75 l)).flatMap
                (fun p => List.drop 1 p) from rfl]
      rw [foldGo_dropAll n (' ' :: l.drop 75) (by simp [List.length_drop]; omega) (by simp)]
      simp only [List.drop_succ_cons, List.drop_zero, List.drop_one, List.tail_cons]
      exact List.take_append_drop 75 l

/-! ## Lemmas: the lexicographic event order and the stable sort -/

theorem listLe_total (a b : List Char) : listLe a b = true ∨ listLe b a = true := by
  induction a generalizing b with
  | nil => left; rfl
  | cons x xs ih =>
    cases b with
    | nil => right; rfl
    | cons y ys =>
      by_cases hxy : x < y
      · left; simp [listLe, hxy]
      · by_cases hyx : y < x
        · right; simp [listLe, hyx, hxy]
        · rcases ih ys with h | h
          · left; simp [listLe, hxy, hyx, h]
          · right; simp [listLe, hxy, hyx, h]

theorem listLe_antisymm (a b : List Char) (h1 : listLe a b = true) (h2 : listLe b a = true) :
    a = b := by
  induction a generalizing b with
  | nil =>
    cases b with
    | nil => rfl
    | cons y ys => simp [listLe] at h2
  | cons x xs ih =>
    cases b with
    | nil => simp [listLe] at h1
    | cons y ys =>
      by_cases hxy : x < y
      · simp [listLe, hxy, lt_asymm hxy] at h2
      · by_cases hyx : y < x
        · simp [listLe, hxy, hyx] at h1
        · have hx : x = y := le_antisymm (not_lt.mp hyx) (not_lt.mp hxy)
          subst hx
          simp only [listLe, if_neg hxy, if_neg hyx] at h1 h2
          rw [ih ys h1 h2]

theorem listLe_trans (a b c : List Char) (h1 : listLe a b = true) (h2 : listLe b c = true) :
    listLe a c = true := by
  induction a generalizing b c with
  | nil => rfl
  | cons x xs ih =>
    cases b with
    | nil => simp [listLe] at h1
    | cons y ys =>
      cases c with
      | nil => simp [listLe] at h2
      | cons z zs =>
        simp only [listLe] at h1 h2 ⊢
        by_cases hxy : x < y
        · by_cases hyz : y < z
          · simp [lt_trans hxy hyz]
          · by_cases hzy : z < y
            · simp [listLe, hyz, hzy] at h2
            · have : y = z := le_antisymm (not_lt.mp hzy) (not_lt.mp hyz)
              subst this
              simp [hxy]
        · by_cases hyx : y < x
          · simp [hxy, hyx] at h1
          · have hxyeq : x = y := le_antisymm (not_lt.mp hyx) (not_lt.mp hxy)
            subst hxyeq
            simp only [if_neg hxy, if_neg hyx] at h1
            by_cases hyz : x < z
            · simp [hyz]
            · by_cases hzy : z < x
              · simp [listLe, hyz, hzy] at h2
              · simp only [if_neg hyz, if_neg hzy] at h2 ⊢
                exact ih ys zs h1 h2

theorem eventLe_total (a b : CourseEvent) : eventLe a b = true ∨ eventLe b a = true := by
  unfold eventLe
  by_cases h1 : a.start < b.start
  · left; simp [h1]
  · by_cases h2 : b.start < a.start
    · right; simp [h2]
    · rcases listLe_total a.title.data b.title.data with h | h
      · left; simp [h1, h2, strLe, h]
      · right; simp [h1, h2, strLe, h]

theorem eventLe_trans (a b c : CourseEvent) (h1 : eventLe a b = true)
    (h2 : eventLe b c = true) : eventLe a c = true := by
  unfold eventLe at h1 h2 ⊢
  by_cases hab : a.start < b.start
  · by_cases hbc : b.start < c.start
    · simp [lt_trans hab hbc]
    · by_cases hcb : c.start < b.start
      · simp [hbc, hcb] at h2
      · have : b.start = c.start := le_antisymm (not_lt.mp hcb) (not_lt.mp hbc)
        simp [this ▸ hab]
  · by_cases hba : b.start < a.start
    · simp [hab, hba] at h1
    · have hab' : a.start = b.start := le_antisymm (not_lt.mp hba) (not_lt.mp hab)
      simp only [if_neg hab, if_neg hba] at h1
      by_cases hbc : b.start < c.start
      · simp [hab' ▸ hbc]
      · by_cases hcb : c.start < b.start
        · simp [hbc, hcb] at h2
        · simp only [if_neg hbc, if_neg hcb] at h2
          have hac : ¬ a.start < c.start := by rw [hab']; exact hbc
          have hca : ¬ c.start < a.start := by rw [hab']; exact hcb
          simp only [if_neg hac, if_neg hca]
          exact listLe_trans _ _ _ h1 h2

/-- Mutual `eventLe` forces equal sort keys. -/
theorem eventLe_antisymm_key (a b : CourseEvent) (h1 : eventLe a b = true)
    (h2 : eventLe b a = true) : a.start = b.start ∧ a.title = b.title := by
  unfold eventLe at h1 h2
  by_cases hab : a.start < b.start
  · simp [hab, lt_asymm hab] at h2
  · by_cases hba : b.start < a.start
    · simp [hab, hba] at h1
    · have hs : a.start = b.start := le_antisymm (not_lt.mp hba) (not_lt.mp hab)
      simp only [if_neg hab, if_neg hba] at h1 h2
      refine ⟨hs, ?_⟩
      have := listLe_antisymm _ _ h1 h2
      exact String.ext this

theorem insertStable_perm (le : CourseEvent → CourseEvent → Bool) (a : CourseEvent)
    (l : List CourseEvent) : List.Perm (insertStable le a l) (a :: l) := by
  induction l with
  | nil => rfl
  | cons b t ih =>
    unfold insertStable
    by_cases h : le a b
    · simp [h]
    · simp only [if_neg h]
      exact (ih.cons b).trans (List.Perm.swap a b t)

theorem sortStable_perm (le : CourseEvent → CourseEvent → Bool) (l : List CourseEvent) :
    List.Perm (sortStable le l) l := by
  induction l with
  | nil => rfl
  | cons a t ih => exact (insertStable_perm le a (sortStable le t)).trans (ih.cons a)

theorem insertStable_pairwise (a : CourseEvent) (l : List CourseEvent)
    (hl : l.Pairwise (fun x y => eventLe x y = true)) :
    (insertStable eventLe a l).Pairwise (fun x y => eventLe x y = true) := by
  induction l with
  | nil => simp [insertStable]
  | cons b t ih =>
    rcases List.pairwise_cons.mp hl with ⟨hb, ht⟩
    unfold insertStable
    by_cases h : eventLe a b
    · simp only [if_pos h]
      refine List.pairwise_cons.mpr ⟨?_, hl⟩
      intro x hx
      rcases hx with _ | hx
      · exact h
      · exact eventLe_trans a b x h (hb x (by assumption))
    · simp only [if_neg h]
      refine List.pairwise_cons.mpr ⟨?_, ih ht⟩
      intro x hx
      have hx' := (insertStable_perm eventLe a t).mem_iff.mp hx
      rcases List.mem_cons.mp hx' with rfl | hmem
      · rcases eventLe_total x b with h' | h'
        · exact absurd h' h
        · exact h'
      · exact hb x hmem

theorem sortStable_pairwise (l : List CourseEvent) :
    (sortStable eventLe l).Pairwise (fun x y => eventLe x y = true) := by
  induction l with
  | nil => simp [sortStable]
  | cons a t ih => exact insertStable_pairwise a (sortStable eventLe t) ih

/-- A sorted list with pairwise-distinct `(start, title)` keys is the only
sorted arrangement of its elements. -/
theorem sorted_perm_eq (l₁ l₂ : List CourseEvent) (hp : List.Perm l₁ l₂)
    (hs₁ : l₁.Pairwise (fun x y => eventLe x y = true))
    (hs₂ : l₂.Pairwise (fun x y => eventLe x y = true))
    (hn : (l₁.map (fun e => (e.start, e.title))).Nodup) : l₁ = l₂ := by
  induction l₁ generalizing l₂ with
  | nil => exact (hp.nil_eq).symm ▸ rfl
  | cons a t₁ ih =>
    cases l₂ with
    | nil => exact absurd hp.symm (by simp)
    | cons b t₂ =>
      rcases List.pairwise_cons.mp hs₁ with ⟨ha, ht₁⟩
      rcases List.pairwise_cons.mp hs₂ with ⟨hb, ht₂⟩
      simp only [List.map_cons, List.nodup_cons] at hn
      by_cases hab : a = b
      · subst hab
        rw [ih t₂ hp.cons_inv ht₁ ht₂ hn.2]
      · exfalso
        have haIn : a ∈ b :: t₂ := hp.subset (List.mem_cons_self a t₁)
        have hbIn : b ∈ a :: t₁ := hp.symm.subset (List.mem_cons_self b t₂)
        have haT₂ : a ∈ t₂ := by
          rcases List.mem_cons.mp haIn with h | h
          · exact absurd h hab
          · assumption
        have hbT₁ : b ∈ t₁ := by
          rcases List.mem_cons.mp hbIn with h | h
          · exact absurd h.symm hab
          · assumption
        have h1 : eventLe a b = true := ha b hbT₁
        have h2 : eventLe b a = true := hb a haT₂
        have hkey := eventLe_antisymm_key a b h1 h2
        have hmem : (a.start, a.title) ∈ t₁.map (fun e => (e.start, e.title)) := by
          rw [hkey.1, hkey.2]
          exact List.mem_map_of_mem _ hbT₁
        exact hn.1 hmem


/-! ## Pass lemmas for `parse_schedule` -/

theorem typedScriptPass_ne_nil (scripts : List ScriptTag) (evs : List CourseEvent)
    (h : typedScriptPass scripts = some evs) : evs ≠ [] := by
  unfold typedScriptPass at h
  obtain ⟨sc, _, hf⟩ := List.exists_of_findSome?_eq_some h
  simp only [] at hf
  by_cases h1 : containsSubS (lowerStr (sc.typeAttr.getD "")) "json" = true
  · rw [if_pos h1] at hf
    by_cases h2 : stripS sc.content = ""
    · rw [if_pos h2] at hf; exact absurd hf (by simp)
    · rw [if_neg h2] at hf
      cases hj : jsonLoads (stripS sc.content) with
      | none => rw [hj] at hf; exact absurd hf (by simp)
      | some obj =>
        rw [hj] at hf
        simp only [] at hf
        by_cases h3 : (_build_events_from_obj obj).isEmpty
        · rw [if_pos h3] at hf; exact absurd hf (by simp)
        · rw [if_neg h3] at hf
          have : _build_events_from_obj obj = evs := by
            exact Option.some.inj hf
          rw [← this]
          intro he
          rw [he] at h3
          exact h3 rfl
  · rw [if_neg h1] at hf; exact absurd hf (by simp)

theorem scanPass_ne_nil (scripts : List ScriptTag) (evs : List CourseEvent)
    (h : scanPass scripts = some evs) : evs ≠ [] := by
  unfold scanPass at h
  obtain ⟨c, _, hf⟩ := List.exists_of_findSome?_eq_some h
  simp only [] at hf
  cases hj : jsonLoads ⟨c⟩ with
  | none => rw [hj] at hf; exact absurd hf (by simp)
  | some obj =>
    rw [hj] at hf
    simp only [] at hf
    by_cases h3 : (_build_events_from_obj obj).isEmpty
    · rw [if_pos h3] at hf; exact absurd hf (by simp)
    · rw [if_neg h3] at hf
      have : _build_events_from_obj obj = evs := Option.some.inj hf
      rw [← this]
      intro he
      rw [he] at h3
      exact h3 rfl

/-! ## Claim theorems -/

/-- C1 (counterexample): a payload that parses directly as JSON but holds
no events makes `parse_schedule` return normally with an empty list — the
"no events found" error is not raised on the direct-JSON path, contrary to
the claim. -/
theorem c1_counterexample :
    parse_schedule "\x7b\x7d" (some "application/json") [] = .ok [] := by decide

/-- C1 (amended): a normal return of `parse_schedule` carries at least one
event unless it came from the direct-JSON path, which returns the
(possibly empty) extraction result of the parsed payload without error;
the typed-script and permissive-scan strategies only ever return
non-empty lists, and zero events elsewhere raises the
"no events found" error. -/
theorem c1_nonempty_or_direct_json :
    ∀ (data : String) (content_type : Option String) (scripts : List ScriptTag)
      (events : List CourseEvent),
      parse_schedule data content_type scripts = .ok events →
      events ≠ [] ∨
        ∃ obj, jsonLoads data = some obj ∧ events = _build_events_from_obj obj := by
  intro data ct scripts events h
  unfold parse_schedule at h
  simp only [] at h
  set lj := (containsSubS (lowerStr (ct.getD "")) "application/json" ||
      decide (data.data.head? = some '\x7b') || decide (data.data.head? = some '[')) with hlj
  cases hm : (if lj then jsonLoads data else none) with
  | some obj =>
    rw [hm] at h
    right
    refine ⟨obj, ?_, (Except.ok.inj h).symm⟩
    by_cases hb : lj
    · rw [if_pos hb] at hm; exact hm
    · rw [if_neg hb] at hm; exact absurd hm (by simp)
  | none =>
    rw [hm] at h
    by_cases hd : data = ""
    · rw [if_pos hd] at h; exact absurd h (by simp)
    · rw [if_neg hd] at h
      cases ht : typedScriptPass scripts with
      | some evs =>
        rw [ht] at h
        exact Or.inl ((Except.ok.inj h) ▸ typedScriptPass_ne_nil scripts evs ht)
      | none =>
        rw [ht] at h
        cases hs : scanPass scripts with
        | some evs =>
          rw [hs] at h
          exact Or.inl ((Except.ok.inj h) ▸ scanPass_ne_nil scripts evs hs)
        | none => rw [hs] at h; exact absurd h (by simp)

/-- C1 witness: the amended theorem at the counterexample input. -/
theorem c1_nonempty_or_direct_json_witness :
    (([] : List CourseEvent) ≠ [] ∨
      ∃ obj, jsonLoads "\x7b\x7d" = some obj ∧
        ([] : List CourseEvent) = _build_events_from_obj obj) :=
  c1_nonempty_or_direct_json "\x7b\x7d" (some "application/json") [] [] (by decide)

/-- C2 (counterexample): a record whose only duration field is `0` minutes
gets the 60-minute default (`if dur_min:` treats 0 as absent), not
`end = start` as the claim states. -/
theorem c2_counterexample :
    coerce_event [("start", JVal.jint 1000000000), ("duration", JVal.jint 0)]
      = some ⟨"FitX Course-1000000000", "FitX Course", 1000000000, 1000003600,
              none, none, none, none⟩ ∧
    (1000003600 : Int) ≠ 1000000000 := by decide

/-- C2 (amended): when the start parses and no end field parses, the end is
`start + duration minutes` for the first present and integer-convertible
duration field when that duration is non-zero, and `start + 60 minutes`
otherwise — including when the found duration is 0. -/
theorem c2_end_defaulting :
    ∀ (it : JRec) (s : DT) (e : CourseEvent),
      startChain it = some s → endChain it = none → coerce_event it = some e →
      e.start = s ∧
      e.end_ = (match durChain it with
                | some d => if d ≠ 0 then s + 60 * d else s + 3600
                | none => s + 3600) := by
  intro it s e hs hend hco
  unfold coerce_event at hco
  rw [hs] at hco
  simp only [hend] at hco
  cases hco
  exact ⟨rfl, rfl⟩

def c2WitnessRecord : JRec := [("start", JVal.jint 0), ("durationMinutes", JVal.jint 90)]

/-- C2 witness: a record with a 90-minute duration gets `end = start + 5400`
seconds. -/
theorem c2_end_defaulting_witness :
    (⟨"FitX Course-0", "FitX Course", 0, 5400, none, none, none, none⟩ : CourseEvent).start
        = 0 ∧
    (⟨"FitX Course-0", "FitX Course", 0, 5400, none, none, none, none⟩ : CourseEvent).end_
        = (match durChain c2WitnessRecord with
           | some d => if d ≠ 0 then (0 : Int) + 60 * d else 0 + 3600
           | none => (0 : Int) + 3600) :=
  c2_end_defaulting c2WitnessRecord 0 _ (by decide) (by decide) (by decide)

def c4DemoEvents : List CourseEvent :=
  [⟨"1", "Booty X Class", 0, 3600, none, none, none, none⟩,
   ⟨"2", "Yoga Flow", 0, 3600, none, none, none, none⟩,
   ⟨"3", "X Step Intervals", 0, 3600, none, none, none, none⟩]

/-- C4: the refresh-cycle filter keeps exactly the events whose lower-cased
title contains no configured keyword as a substring, and on the default
keywords the three demo titles filter down to exactly "Yoga Flow". -/
theorem c4_keyword_filter :
    (∀ (kws : List String) (events : List CourseEvent) (e : CourseEvent),
        e ∈ filterEvents kws events ↔
          e ∈ events ∧ ∀ k ∈ kws, ¬ k.data <:+: (lowerStr e.title).data) ∧
    (filterEvents EXCLUDE_KEYWORDS c4DemoEvents).map CourseEvent.title = ["Yoga Flow"] := by
  constructor
  · intro kws events e
    simp [filterEvents, List.mem_filter, containsSubS, containsSub, List.any_eq_true]
  · decide

/-- C4 witness: "Yoga Flow" survives the default filter. -/
theorem c4_keyword_filter_witness :
    (⟨"2", "Yoga Flow", 0, 3600, none, none, none, none⟩ : CourseEvent)
      ∈ filterEvents EXCLUDE_KEYWORDS c4DemoEvents :=
  (c4_keyword_filter.1 EXCLUDE_KEYWORDS c4DemoEvents _).mpr (by decide)

/-- C5: a refresh cycle whose fetch fails, or whose parse fails, changes
nothing: the in-memory pair and the on-disk cache are exactly what they
were, so the content served by `/calendar.ics` is byte-identical. -/
theorem c5_failed_cycle_keeps_cache :
    ∀ (fetchRes : Except String (String × Option String)) (scripts : List ScriptTag)
      (kws : List String) (course_id : Int) (now : DT) (st : AppState),
      ((∃ msg, fetchRes = .error msg) ∨
       (∃ d ct err, fetchRes = .ok (d, ct) ∧ parse_schedule d ct scripts = .error err)) →
      _refresh_once fetchRes scripts kws course_id now st = st ∧
      ∀ now', servedCalendar course_id now'
          (_refresh_once fetchRes scripts kws course_id now st)
        = servedCalendar course_id now' st := by
  intro fetchRes scripts kws course_id now st h
  have hst : _refresh_once fetchRes scripts kws course_id now st = st := by
    rcases h with ⟨msg, rfl⟩ | ⟨d, ct, err, rfl, hp⟩
    · rfl
    · rw [show _refresh_once (.ok (d, ct)) scripts kws course_id now st
            = (match parse_schedule d ct scripts with
               | .error _ => st
               | .ok events =>
                 let events' := if kws.isEmpty then events else filterEvents kws events
                 let ics_text := generate_ics course_id events' now
                 _update_cache events' ics_text st) from rfl]
      rw [hp]
  exact ⟨hst, fun now' => by rw [hst]⟩

def c5DemoState : AppState :=
  ⟨some "CACHED", some [], ⟨some "CACHED", some []⟩⟩

/-- C5 witness: a failed fetch leaves a populated cache untouched. -/
theorem c5_failed_cycle_keeps_cache_witness :
    _refresh_once (.error "boom") [] [] 53 0 c5DemoState = c5DemoState ∧
    ∀ now', servedCalendar 53 now' (_refresh_once (.error "boom") [] [] 53 0 c5DemoState)
      = servedCalendar 53 now' c5DemoState :=
  c5_failed_cycle_keeps_cache (.error "boom") [] [] 53 0 c5DemoState
    (Or.inl ⟨"boom", rfl⟩)

/-- C6: folding never produces a physical line above 75 characters, every
continuation line begins with a space, stripping that one space from each
continuation and rejoining reconstructs the original line; and every
physical line of the generated calendar (header, footer and timezone lines
included) respects the 75-character bound. -/
theorem c6_line_folding :
    (∀ line : List Char,
        (∀ p ∈ foldL line, p.length ≤ 75) ∧
        (∀ p ∈ (foldL line).tail, p.head? = some ' ') ∧
        unfoldL (foldL line) = line) ∧
    (∀ (course_id : Int) (events : List CourseEvent) (now : DT),
        ∀ p ∈ icsPhysicalLines course_id events now, p.length ≤ 75) := by
  constructor
  · intro line
    exact ⟨foldL_length line, foldL_tail_space line, unfold_foldL line⟩
  · intro course_id events now p hp
    unfold icsPhysicalLines at hp
    obtain ⟨l, _, hpl⟩ := List.mem_flatMap.mp hp
    unfold _fold_line at hpl
    obtain ⟨q, hq, rfl⟩ := List.mem_map.mp hpl
    exact foldL_length l.data q hq

/-- C6 witness: the folding bound at a concrete document line. -/
theorem c6_line_folding_witness : ("BEGIN:VCALENDAR" : String).length ≤ 75 :=
  c6_line_folding.2 53 [] 0 "BEGIN:VCALENDAR" (by decide)

/-- C7: `_escape_ics` equals the single-pass escaping the specification
describes (backslash doubled first, then semicolon, comma, CRLF and lone LF
to the two-character backslash-n), and a title with a comma, semicolon and
newline renders in SUMMARY with the literal escape sequences and no
unescaped control characters. -/
theorem c7_escaping :
    (∀ s : String, _escape_ics s = ⟨escSpec s.data⟩) ∧
    ("SUMMARY:" ++ _escape_ics "a,b;c\nd" = "SUMMARY:a\\,b\\;c\\nd") ∧
    (∀ c ∈ (_escape_ics "a,b;c\nd").data, c ≠ '\n' ∧ c ≠ '\x0d') := by
  refine ⟨?_, by decide, by decide⟩
  intro s
  unfold _escape_ics
  rw [escape_eq_spec]

/-- C7 witness: the nontrivial-character guarantee at a concrete character
of the escaped demo title. -/
theorem c7_escaping_witness : ('a' ≠ '\n' ∧ 'a' ≠ '\x0d') :=
  c7_escaping.2.2 'a' (by decide)

/-- C10: on the HTML branch the "not decodable as UTF-8 text" error is
raised exactly on the empty payload: replacement decoding never fails, so
the emptiness check is the only trigger. -/
theorem c10_undecodable_iff_empty :
    ∀ (data : String) (content_type : Option String) (scripts : List ScriptTag),
      containsSubS (lowerStr (content_type.getD "")) "application/json" = false →
      data.data.head? ≠ some '\x7b' → data.data.head? ≠ some '[' →
      (parse_schedule data content_type scripts = .error .undecodable ↔ data = "") := by
  intro data ct scripts h1 h2 h3
  unfold parse_schedule
  simp only [h1, h2, h3]
  rw [if_neg (by simp)]
  by_cases hd : data = ""
  · rw [if_pos hd]
    simp [hd]
  · rw [if_neg hd]
    constructor
    · intro h
      cases ht : typedScriptPass scripts with
      | some evs => rw [ht] at h; exact absurd h (by simp)
      | none =>
        rw [ht] at h
        cases hs : scanPass scripts with
        | some evs => rw [hs] at h; exact absurd h (by simp)
        | none => rw [hs] at h; exact absurd h (by decide)
    · intro h; exact absurd h hd

/-- C10 witness: the empty payload on the HTML branch raises the
undecodable error. -/
theorem c10_undecodable_iff_empty_witness :
    parse_schedule "" none [] = .error .undecodable :=
  (c10_undecodable_iff_empty "" none [] (by decide) (by decide) (by decide)).mpr rfl

/-! ## Lemmas: deduplication (C3) -/

/-- The last record of `evs` carrying deduplication key `k`. -/
def lastWithKey (k : String × Int × Int) (evs : List CourseEvent) : Option CourseEvent :=
  (evs.filter (fun e => dedupKey e = k)).getLast?

/-- Lookup in the `uniq` association list. -/
def lookupKey (k : String × Int × Int)
    (acc : List ((String × Int × Int) × CourseEvent)) : Option CourseEvent :=
  (acc.find? (fun p => p.1 = k)).map (·.2)

/-- The invariant of the `uniq` dict: keys are the events' dedup keys and
are pairwise distinct. -/
def GoodAcc (acc : List ((String × Int × Int) × CourseEvent)) : Prop :=
  (∀ p ∈ acc, p.1 = dedupKey p.2) ∧ (acc.map Prod.fst).Nodup

theorem lookupKey_dedupInsert (k : String × Int × Int)
    (acc : List ((String × Int × Int) × CourseEvent)) (e : CourseEvent) :
    lookupKey k (dedupInsert acc e)
      = if k = dedupKey e then some e else lookupKey k acc := by
  unfold dedupInsert lookupKey
  by_cases hp : (acc.find? (fun p => p.1 = dedupKey e)).isSome
  · rw [if_pos hp]
    rw [List.find?_map]
    have hfun : ((fun p : (String × Int × Int) × CourseEvent => decide (p.1 = k)) ∘
        (fun p : (String × Int × Int) × CourseEvent =>
          if p.1 = dedupKey e then (p.1, e) else p))
        = (fun p : (String × Int × Int) × CourseEvent => decide (p.1 = k)) := by
      funext p
      by_cases hq : p.1 = dedupKey e <;> simp [hq]
    rw [hfun]
    cases hf : acc.find? (fun p => decide (p.1 = k)) with
    | none =>
      by_cases hk : k = dedupKey e
      · exfalso
        rw [hk] at hf
        rw [hf] at hp
        simp at hp
      · rw [if_neg hk]
        simp
    | some q =>
      have hq1 : q.1 = k := by
        have := List.find?_eq_some.mp hf
        simpa using this.1
      by_cases hk : k = dedupKey e
      · rw [if_pos hk]
        simp [hq1, hk]
      · rw [if_neg hk]
        have hq2 : ¬ q.1 = dedupKey e := by rw [hq1]; exact hk
        simp [hq2]
  · rw [if_neg hp]
    rw [List.find?_append]
    by_cases hk : k = dedupKey e
    · have hnone : acc.find? (fun p => decide (p.1 = k)) = none := by
        cases hf : acc.find? (fun p => decide (p.1 = k)) with
        | none => rfl
        | some q =>
          exfalso
          rw [hk] at hf
          rw [hf] at hp
          simp at hp
      rw [hnone, if_pos hk]
      rw [Option.none_or]
      rw [List.find?_cons_of_pos _ (by simp [hk])]
      rfl
    · rw [if_neg hk]
      rw [show ([((dedupKey e, e) : (String × Int × Int) × CourseEvent)].find?
            (fun p => decide (p.1 = k))) = none from by
        rw [List.find?_cons_of_neg _ (by simp; exact fun h => hk h.symm)]
        rfl]
      simp

theorem goodAcc_dedupInsert (acc : List ((String × Int × Int) × CourseEvent))
    (e : CourseEvent) (hg : GoodAcc acc) : GoodAcc (dedupInsert acc e) := by
  obtain ⟨hkeys, hnd⟩ := hg
  unfold dedupInsert
  by_cases hp : (acc.find? (fun p => p.1 = dedupKey e)).isSome
  · rw [if_pos hp]
    constructor
    · intro p hpmem
      obtain ⟨q, hqmem, hqeq⟩ := List.mem_map.mp hpmem
      by_cases hq : q.1 = dedupKey e
      · rw [if_pos hq] at hqeq
        rw [← hqeq]
        exact hq
      · rw [if_neg hq] at hqeq
        rw [← hqeq]
        exact hkeys q hqmem
    · have hmap : (acc.map (fun p => if p.1 = dedupKey e then (p.1, e) else p)).map Prod.fst
          = acc.map Prod.fst := by
        rw [List.map_map]
        apply List.map_congr_left
        intro p _
        by_cases hq : p.1 = dedupKey e <;> simp [hq]
      rw [hmap]
      exact hnd
  · rw [if_neg hp]
    constructor
    · intro p hpmem
      rcases List.mem_append.mp hpmem with h | h
      · exact hkeys p h
      · simp at h
        rw [h]
    · rw [List.map_append]
      simp only [List.map_cons, List.map_nil]
      rw [List.nodup_append]
      refine ⟨hnd, List.nodup_singleton _, ?_⟩
      intro a ha
      simp only [List.mem_singleton]
      intro hae
      obtain ⟨q, hqmem, hqfst⟩ := List.mem_map.mp ha
      have hne : acc.find? (fun p => p.1 = dedupKey e) ≠ none := by
        intro hnone
        have := List.find?_eq_none.mp hnone q hqmem
        rw [hqfst, hae] at this
        simp at this
      rcases ho : acc.find? (fun p => p.1 = dedupKey e) with _ | q'
      · exact hne ho
      · rw [ho] at hp; simp at hp

theorem lastWithKey_cons (k : String × Int × Int) (e : CourseEvent)
    (t : List CourseEvent) :
    lastWithKey k (e :: t)
      = match lastWithKey k t with
        | some x => some x
        | none => if dedupKey e = k then some e else none := by
  unfold lastWithKey
  rw [List.filter_cons]
  by_cases hk : dedupKey e = k
  · rw [if_pos (by simp [hk]), List.getLast?_cons]
    cases hl : (t.filter fun x => decide (dedupKey x = k)).getLast? with
    | none => simp [hl, hk]
    | some x => simp [hl]
  · rw [if_neg (by simp [hk])]
    cases hl : (t.filter fun x => decide (dedupKey x = k)).getLast? with
    | none => simp [hl, hk]
    | some x => simp [hl]

theorem lookupKey_fold (evs : List CourseEvent) :
    ∀ (acc : List ((String × Int × Int) × CourseEvent)) (k : String × Int × Int),
      lookupKey k (evs.foldl dedupInsert acc)
        = match lastWithKey k evs with
          | some x => some x
          | none => lookupKey k acc := by
  induction evs with
  | nil => intro acc k; rfl
  | cons e t ih =>
    intro acc k
    rw [List.foldl_cons, ih (dedupInsert acc e) k, lastWithKey_cons]
    cases hl : lastWithKey k t with
    | some x => rfl
    | none =>
      simp only []
      rw [lookupKey_dedupInsert]
      by_cases hk : dedupKey e = k
      · rw [if_pos hk, if_pos hk.symm]
      · rw [if_neg hk, if_neg (fun h => hk h.symm)]

theorem goodAcc_fold (evs : List CourseEvent) :
    ∀ acc, GoodAcc acc → GoodAcc (evs.foldl dedupInsert acc) := by
  induction evs with
  | nil => intro acc h; exact h
  | cons e t ih =>
    intro acc h
    rw [List.foldl_cons]
    exact ih _ (goodAcc_dedupInsert acc e h)

theorem lookupKey_of_mem (acc : List ((String × Int × Int) × CourseEvent))
    (p : (String × Int × Int) × CourseEvent) (hp : p ∈ acc)
    (hnd : (acc.map Prod.fst).Nodup) : lookupKey p.1 acc = some p.2 := by
  induction acc with
  | nil => simp at hp
  | cons a t ih =>
    simp only [List.map_cons, List.nodup_cons] at hnd
    unfold lookupKey
    rcases List.mem_cons.mp hp with rfl | hmem
    · rw [List.find?_cons_of_pos _ (by simp)]
      rfl
    · have ha : ¬ (a.1 = p.1) := by
        intro he
        exact hnd.1 (he ▸ List.mem_map_of_mem Prod.fst hmem)
      rw [List.find?_cons_of_neg _ (by simp [ha])]
      exact ih hmem hnd.2

theorem mem_values_iff_lookup (acc : List ((String × Int × Int) × CourseEvent))
    (hg : GoodAcc acc) (e : CourseEvent) :
    e ∈ acc.map (·.2) ↔ lookupKey (dedupKey e) acc = some e := by
  constructor
  · intro hmem
    obtain ⟨p, hpmem, hpe⟩ := List.mem_map.mp hmem
    have hk := hg.1 p hpmem
    have := lookupKey_of_mem acc p hpmem hg.2
    rw [hk, hpe] at this
    exact this
  · intro hl
    unfold lookupKey at hl
    cases hf : (acc.find? (fun p => p.1 = dedupKey e)) with
    | none => rw [hf] at hl; simp at hl
    | some q =>
      rw [hf] at hl
      simp at hl
      exact hl ▸ List.mem_map_of_mem (·.2) (List.mem_of_find?_eq_some hf)

/-- C3: `_build_events_from_obj` keeps exactly one event per
`(id, start seconds, end seconds)` key — the last-coerced record with that
key, so later duplicates override earlier ones — and returns the survivors
sorted by `(start, title)`. -/
theorem c3_dedup_last_wins_sorted :
    ∀ obj : JVal,
      (∀ e : CourseEvent,
          e ∈ _build_events_from_obj obj ↔
            lastWithKey (dedupKey e)
              ((extract_events_from_json obj).filterMap coerce_event) = some e) ∧
      ((_build_events_from_obj obj).map dedupKey).Nodup ∧
      (_build_events_from_obj obj).Pairwise (fun a b => eventLe a b = true) := by
  intro obj
  set evs := (extract_events_from_json obj).filterMap coerce_event with hevs
  set uniq := evs.foldl dedupInsert [] with huniq
  have hgood : GoodAcc uniq := goodAcc_fold evs [] ⟨by simp, by simp⟩
  have hbuild : _build_events_from_obj obj = sortStable eventLe (uniq.map (·.2)) := rfl
  refine ⟨?_, ?_, ?_⟩
  · intro e
    rw [hbuild]
    rw [(sortStable_perm eventLe (uniq.map (·.2))).mem_iff]
    rw [mem_values_iff_lookup uniq hgood e]
    rw [huniq, lookupKey_fold evs [] (dedupKey e)]
    cases hl : lastWithKey (dedupKey e) evs with
    | none => simp [lookupKey, List.find?]
    | some x => simp
  · rw [hbuild]
    have hperm := (sortStable_perm eventLe (uniq.map (·.2))).map dedupKey
    apply hperm.symm.nodup
    have : (uniq.map (·.2)).map dedupKey = uniq.map Prod.fst := by
      rw [List.map_map]
      apply List.map_congr_left
      intro p hp
      exact (hgood.1 p hp).symm
    rw [this]
    exact hgood.2
  · rw [hbuild]
    exact sortStable_pairwise _

def c3DemoObj : JVal :=
  .jobj (.cons "events"
    (.jarr (.cons (.jobj (.cons "id" (.jstr "a") (.cons "start" (.jint 1000) .nil)))
      (.cons (.jobj (.cons "id" (.jstr "a") (.cons "start" (.jint 1000)
        (.cons "title" (.jstr "B") .nil)))) .nil))) .nil)

/-- C3 witness: two records with the same key collapse to the later one,
whose title survives. -/
theorem c3_dedup_last_wins_sorted_witness :
    (⟨"a", "B", 1000, 4600, none, none, none, none⟩ : CourseEvent)
      ∈ _build_events_from_obj c3DemoObj :=
  ((c3_dedup_last_wins_sorted c3DemoObj).1 _).mpr (by decide)

/-! ## Lemmas: VEVENT blocks and output determinism (C8) -/

theorem append_ne_begin (p x : String) (c : Char) (hp : p.data.head? = some c)
    (hc : c ≠ 'B') : (p ++ x) ≠ "BEGIN:VEVENT" := by
  intro he
  have h1 : (p ++ x).data.head? = some c := by
    rw [show (p ++ x).data = p.data ++ x.data from rfl]
    cases hq : p.data with
    | nil => rw [hq] at hp; simp at hp
    | cons a t =>
      rw [hq] at hp
      simp only [List.head?_cons, Option.some.injEq] at hp
      simp [hp]
  rw [he] at h1
  have h2 : some 'B' = some c := h1
  exact hc (Option.some.inj h2).symm

theorem eventBlock_countP (course_id : Int) (now : DT) (ev : CourseEvent) :
    (eventBlock course_id now ev).countP (fun l => l == "BEGIN:VEVENT") = 1 := by
  have hB : ∀ dp : List String,
      List.countP (fun l => l == "BEGIN:VEVENT")
        (if dp.isEmpty then ([] : List String)
         else ["DESCRIPTION:" ++ _escape_ics (joinLF dp)]) = 0 := by
    intro dp
    by_cases h : dp.isEmpty
    · rw [if_pos h]; rfl
    · rw [if_neg h]
      simp only [List.countP_cons, List.countP_nil]
      rw [beq_eq_false_iff_ne.mpr (append_ne_begin "DESCRIPTION:" _ 'D' rfl (by decide))]
      rfl
  have hC : ∀ o : Option String,
      List.countP (fun l => l == "BEGIN:VEVENT")
        (match o with
         | some loc => ["LOCATION:" ++ _escape_ics loc]
         | none => ([] : List String)) = 0 := by
    intro o
    cases o with
    | none => rfl
    | some loc =>
      simp only [List.countP_cons, List.countP_nil]
      rw [beq_eq_false_iff_ne.mpr (append_ne_begin "LOCATION:" _ 'L' rfl (by decide))]
      rfl
  unfold eventBlock
  simp only [List.countP_append]
  rw [hB, hC]
  simp only [List.countP_cons, List.countP_nil]
  rw [beq_eq_false_iff_ne.mpr (append_ne_begin "UID:fitx-" _ 'U' rfl (by decide))]
  rw [beq_eq_false_iff_ne.mpr (append_ne_begin "DTSTAMP:" _ 'D' rfl (by decide))]
  rw [beq_eq_false_iff_ne.mpr
    (append_ne_begin "DTSTART;TZID=Europe/Berlin:" _ 'D' rfl (by decide))]
  rw [beq_eq_false_iff_ne.mpr
    (append_ne_begin "DTEND;TZID=Europe/Berlin:" _ 'D' rfl (by decide))]
  rw [beq_eq_false_iff_ne.mpr (append_ne_begin "SUMMARY:" _ 'S' rfl (by decide))]
  rfl

theorem flatMap_blocks_countP (course_id : Int) (now : DT) :
    ∀ l : List CourseEvent,
      (l.flatMap (eventBlock course_id now)).countP (fun s => s == "BEGIN:VEVENT")
        = l.length := by
  intro l
  induction l with
  | nil => rfl
  | cons e t ih =>
    rw [List.flatMap_cons, List.countP_append, eventBlock_countP, ih, List.length_cons]
    omega

/-- C8 (counterexample): two events sharing `(start, title)` but differing
in another field make the output depend on the input order (Python's sort
is stable), so permutations of the same event list need not yield identical
documents. -/
theorem c8_counterexample :
    generate_ics 53 [⟨"a", "T", 3600, 7200, some "L1", none, none, none⟩,
                     ⟨"b", "T", 3600, 7200, some "L2", none, none, none⟩] 0
      ≠ generate_ics 53 [⟨"b", "T", 3600, 7200, some "L2", none, none, none⟩,
                         ⟨"a", "T", 3600, 7200, some "L1", none, none, none⟩] 0 := by
  decide

/-- C8 (amended): `generate_ics` emits exactly one VEVENT block per input
event, in the order of the stable `(start, title)` sort of the input (ties
keep their input order); when no two events share the `(start, title)` key,
any two permutations of the same list yield identical documents for a fixed
DTSTAMP moment. -/
theorem c8_blocks_sorted_deterministic :
    ∀ (course_id : Int) (events : List CourseEvent) (now : DT),
      (icsLogicalLines course_id events now).countP (fun l => l == "BEGIN:VEVENT")
        = events.length ∧
      List.Perm (sortStable eventLe events) events ∧
      (sortStable eventLe events).Pairwise (fun a b => eventLe a b = true) ∧
      (∀ events', List.Perm events events' →
        (events.map (fun e => (e.start, e.title))).Nodup →
        generate_ics course_id events now = generate_ics course_id events' now) := by
  intro course_id events now
  refine ⟨?_, sortStable_perm eventLe events, sortStable_pairwise events, ?_⟩
  · unfold icsLogicalLines
    simp only [List.countP_append]
    rw [flatMap_blocks_countP]
    rw [(sortStable_perm eventLe events).length_eq]
    rw [show List.countP (fun l => l == "BEGIN:VEVENT")
          ["BEGIN:VCALENDAR", "PRODID:-//fitx-local//ics//EN", "VERSION:2.0",
           "CALSCALE:GREGORIAN", "METHOD:PUBLISH"] = 0 from by decide]
    rw [show List.countP (fun l => l == "BEGIN:VEVENT") _vtz_europe_berlin = 0 from by decide]
    rw [show List.countP (fun l => l == "BEGIN:VEVENT") ["END:VCALENDAR"] = 0 from by decide]
    omega
  · intro events' hperm hnodup
    have hsorteq : sortStable eventLe events = sortStable eventLe events' := by
      apply sorted_perm_eq
      · exact ((sortStable_perm eventLe events).trans hperm).trans
          (sortStable_perm eventLe events').symm
      · exact sortStable_pairwise events
      · exact sortStable_pairwise events'
      · exact ((sortStable_perm eventLe events).map
          (fun e => (e.start, e.title))).symm.nodup hnodup
    unfold generate_ics icsPhysicalLines icsLogicalLines
    rw [hsorteq]

/-- C8 witness: with distinct `(start, title)` keys a swap of the input
order leaves the document unchanged. -/
theorem c8_blocks_sorted_deterministic_witness :
    generate_ics 53 [⟨"a", "T1", 3600, 7200, none, none, none, none⟩,
                     ⟨"b", "T2", 3600, 7200, none, none, none, none⟩] 0
      = generate_ics 53 [⟨"b", "T2", 3600, 7200, none, none, none, none⟩,
                         ⟨"a", "T1", 3600, 7200, none, none, none, none⟩] 0 :=
  (c8_blocks_sorted_deterministic 53
      [⟨"a", "T1", 3600, 7200, none, none, none, none⟩,
       ⟨"b", "T2", 3600, 7200, none, none, none, none⟩] 0).2.2.2
    [⟨"b", "T2", 3600, 7200, none, none, none, none⟩,
     ⟨"a", "T1", 3600, 7200, none, none, none, none⟩]
    (by decide) (by decide)

/-! ## Lemmas: calendar arithmetic (C9) -/

theorem daysBeforeYear_one : daysBeforeYear 1 = 0 := rfl

theorem daysBeforeYear_succ (y : Nat) (hy : 1 ≤ y) :
    daysBeforeYear (y + 1) = daysBeforeYear y + daysInYear y := by
  unfold daysBeforeYear daysInYear leapsLe isLeap
  by_cases h4 : y % 4 = 0 <;> by_cases h100 : y % 100 = 0 <;> by_cases h400 : y % 400 = 0 <;>
    simp [h4, h100, h400] <;> omega

theorem daysInYear_pos (y : Nat) : 365 ≤ daysInYear y := by
  unfold daysInYear; split <;> omega

theorem daysBeforeYear_mono : ∀ a b : Nat, 1 ≤ a → a ≤ b →
    daysBeforeYear a ≤ daysBeforeYear b := by
  intro a b ha hab
  induction b, hab using Nat.le_induction with
  | base => exact le_refl _
  | succ b hab ih =>
    rw [daysBeforeYear_succ b (by omega)]
    have := daysInYear_pos b
    omega

theorem findYearFine_spec (N : Nat) : ∀ (fuel y : Nat), 1 ≤ y →
    daysBeforeYear y ≤ N → N < daysBeforeYear (y + fuel) →
    1 ≤ findYearFine N y fuel ∧
    daysBeforeYear (findYearFine N y fuel) ≤ N ∧
    N < daysBeforeYear (findYearFine N y fuel + 1) := by
  intro fuel
  induction fuel with
  | zero =>
    intro y hy h1 h2
    rw [Nat.add_zero] at h2
    omega
  | succ fuel ih =>
    intro y hy h1 h2
    rw [show findYearFine N y (fuel + 1)
          = if N < daysBeforeYear (y + 1) then y else findYearFine N (y + 1) fuel from rfl]
    by_cases hc : N < daysBeforeYear (y + 1)
    · rw [if_pos hc]
      exact ⟨hy, h1, hc⟩
    · rw [if_neg hc]
      have h2' : N < daysBeforeYear (y + 1 + fuel) := by
        rw [show y + 1 + fuel = y + (fuel + 1) from by omega]
        exact h2
    
      exact ih (y + 1) (by omega) (by omega) h2'

theorem findYearCoarse_spec (N : Nat) : ∀ (fuel y : Nat), 1 ≤ y →
    daysBeforeYear y ≤ N → N < daysBeforeYear (y + 400 * fuel) →
    1 ≤ findYearCoarse N y fuel ∧
    daysBeforeYear (findYearCoarse N y fuel) ≤ N ∧
    N < daysBeforeYear (findYearCoarse N y fuel + 400) := by
  intro fuel
  induction fuel with
  | zero =>
    intro y hy h1 h2
    rw [Nat.mul_zero, Nat.add_zero] at h2
    omega
  | succ fuel ih =>
    intro y hy h1 h2
    rw [show findYearCoarse N y (fuel + 1)
          = if N < daysBeforeYear (y + 400) then y
            else findYearCoarse N (y + 400) fuel from rfl]
    by_cases hc : N < daysBeforeYear (y + 400)
    · rw [if_pos hc]
      exact ⟨hy, h1, hc⟩
    · rw [if_neg hc]
      have h2' : N < daysBeforeYear (y + 400 + 400 * fuel) := by
        rw [show y + 400 + 400 * fuel = y + 400 * (fuel + 1) from by ring]
        exact h2
      exact ih (y + 400) (by omega) (by omega) h2'

theorem findYear_spec (N : Nat) (hN : N < 3652059) :
    1 ≤ findYear N ∧ findYear N ≤ 9999 ∧
    daysBeforeYear (findYear N) ≤ N ∧ N < daysBeforeYear (findYear N + 1) := by
  have h10000 : daysBeforeYear 10000 = 3652059 := by decide
  have hcoarse := findYearCoarse_spec N 25 1 (le_refl 1)
    (by rw [daysBeforeYear_one]; exact Nat.zero_le N)
    (by
      rw [show 1 + 400 * 25 = 10001 from by norm_num]
      have : daysBeforeYear 10000 ≤ daysBeforeYear 10001 := daysBeforeYear_mono _ _ (by omega) (by omega)
      omega)
  have hfine := findYearFine_spec N 400 (findYearCoarse N 1 25)
    hcoarse.1 hcoarse.2.1 hcoarse.2.2
  have hfy : findYear N = findYearFine N (findYearCoarse N 1 25) 400 := rfl
  rw [← hfy] at hfine
  refine ⟨hfine.1, ?_, hfine.2.1, hfine.2.2⟩
  by_contra hgt
  have h1 : 10000 ≤ findYear N := by omega
  have := daysBeforeYear_mono 10000 (findYear N) (by omega) h1
  omega

theorem findMonth_spec (y r : Nat) (hr : r < daysInYear y) :
    1 ≤ (findMonth y r).1 ∧ (findMonth y r).1 ≤ 12 ∧
    daysBeforeMonth y (findMonth y r).1 ≤ r ∧
    r < daysBeforeMonth y ((findMonth y r).1 + 1) ∧
    (findMonth y r).2 = r - daysBeforeMonth y (findMonth y r).1 ∧
    (findMonth y r).2 + 1 ≤ daysInMonth y (findMonth y r).1 := by
  rcases hfm : findMonth y r with ⟨m, d0⟩
  rw [show ((m, d0) : Nat × Nat).1 = m from rfl, show ((m, d0) : Nat × Nat).2 = d0 from rfl]
  unfold findMonth at hfm
  cases hLeap : isLeap y with
  | false =>
    simp only [daysBeforeMonth, daysBeforeMonthBase, daysInMonth, hLeap, and_false,
      if_false, Bool.false_eq_true, daysInYear, Nat.add_zero] at hfm hr ⊢
    by_cases h1 : r < 31
    · rw [if_pos h1] at hfm
      obtain ⟨hm, hd⟩ := Prod.mk.inj hfm
      subst hm; subst hd
      refine ⟨by norm_num, by norm_num, ?_, ?_, ?_, ?_⟩ <;> simp <;> omega
    · rw [if_neg h1] at hfm
      by_cases h2 : r < 59
      · rw [if_pos h2] at hfm
        obtain ⟨hm, hd⟩ := Prod.mk.inj hfm
        subst hm; subst hd
        refine ⟨by norm_num, by norm_num, ?_, ?_, ?_, ?_⟩ <;> simp <;> omega
      · rw [if_neg h2] at hfm
        by_cases h3 : r < 90
        · rw [if_pos h3] at hfm
          obtain ⟨hm, hd⟩ := Prod.mk.inj hfm
          subst hm; subst hd
          refine ⟨by norm_num, by norm_num, ?_, ?_, ?_, ?_⟩ <;> simp <;> omega
        · rw [if_neg h3] at hfm
          by_cases h4 : r < 120
          · rw [if_pos h4] at hfm
            obtain ⟨hm, hd⟩ := Prod.mk.inj hfm
            subst hm; subst hd
            refine ⟨by norm_num, by norm_num, ?_, ?_, ?_, ?_⟩ <;> simp <;> omega
          · rw [if_neg h4] at hfm
            by_cases h5 : r < 151
            · rw [if_pos h5] at hfm
              obtain ⟨hm, hd⟩ := Prod.mk.inj hfm
              subst hm; subst hd
              refine ⟨by norm_num, by norm_num, ?_, ?_, ?_, ?_⟩ <;> simp <;> omega
            · rw [if_neg h5] at hfm
              by_cases h6 : r < 181
              · rw [if_pos h6] at hfm
                obtain ⟨hm, hd⟩ := Prod.mk.inj hfm
                subst hm; subst hd
                refine ⟨by norm_num, by norm_num, ?_, ?_, ?_, ?_⟩ <;> simp <;> omega
              · rw [if_neg h6] at hfm
                by_cases h7 : r < 212
                · rw [if_pos h7] at hfm
                  obtain ⟨hm, hd⟩ := Prod.mk.inj hfm
                  subst hm; subst hd
                  refine ⟨by norm_num, by norm_num, ?_, ?_, ?_, ?_⟩ <;> simp <;> omega
                · rw [if_neg h7] at hfm
                  by_cases h8 : r < 243
                  · rw [if_pos h8] at hfm
                    obtain ⟨hm, hd⟩ := Prod.mk.inj hfm
                    subst hm; subst hd
                    refine ⟨by norm_num, by norm_num, ?_, ?_, ?_, ?_⟩ <;> simp <;> omega
                  · rw [if_neg h8] at hfm
                    by_cases h9 : r < 273
                    · rw [if_pos h9] at hfm
                      obtain ⟨hm, hd⟩ := Prod.mk.inj hfm
                      subst hm; subst hd
                      refine ⟨by norm_num, by norm_num, ?_, ?_, ?_, ?_⟩ <;> simp <;> omega
                    · rw [if_neg h9] at hfm
                      by_cases h10 : r < 304
                      · rw [if_pos h10] at hfm
                        obtain ⟨hm, hd⟩ := Prod.mk.inj hfm
                        subst hm; subst hd
                        refine ⟨by norm_num, by norm_num, ?_, ?_, ?_, ?_⟩ <;> simp <;> omega
                      · rw [if_neg h10] at hfm
                        by_cases h11 : r < 334
                        · rw [if_pos h11] at hfm
                          obtain ⟨hm, hd⟩ := Prod.mk.inj hfm
                          subst hm; subst hd
                          refine ⟨by norm_num, by norm_num, ?_, ?_, ?_, ?_⟩ <;> simp <;> omega
                        · rw [if_neg h11] at hfm
                          obtain ⟨hm, hd⟩ := Prod.mk.inj hfm
                          subst hm; subst hd
                          refine ⟨by norm_num, by norm_num, ?_, ?_, ?_, ?_⟩ <;> simp <;> omega
  | true =>
    simp [daysBeforeMonth, daysBeforeMonthBase, daysInMonth, hLeap, daysInYear] at hfm hr ⊢
    by_cases h1 : r < 31
    · rw [if_pos h1] at hfm
      obtain ⟨hm, hd⟩ := Prod.mk.inj hfm
      subst hm; subst hd
      refine ⟨by norm_num, by norm_num, ?_, ?_, ?_, ?_⟩ <;> simp <;> omega
    · rw [if_neg h1] at hfm
      by_cases h2 : r < 60
      · rw [if_pos h2] at hfm
        obtain ⟨hm, hd⟩ := Prod.mk.inj hfm
        subst hm; subst hd
        refine ⟨by norm_num, by norm_num, ?_, ?_, ?_, ?_⟩ <;> simp <;> omega
      · rw [if_neg h2] at hfm
        by_cases h3 : r < 91
        · rw [if_pos h3] at hfm
          obtain ⟨hm, hd⟩ := Prod.mk.inj hfm
          subst hm; subst hd
          refine ⟨by norm_num, by norm_num, ?_, ?_, ?_, ?_⟩ <;> simp <;> omega
        · rw [if_neg h3] at hfm
          by_cases h4 : r < 121
          · rw [if_pos h4] at hfm
            obtain ⟨hm, hd⟩ := Prod.mk.inj hfm
            subst hm; subst hd
            refine ⟨by norm_num, by norm_num, ?_, ?_, ?_, ?_⟩ <;> simp <;> omega
          · rw [if_neg h4] at hfm
            by_cases h5 : r < 152
            · rw [if_pos h5] at hfm
              obtain ⟨hm, hd⟩ := Prod.mk.inj hfm
              subst hm; subst hd
              refine ⟨by norm_num, by norm_num, ?_, ?_, ?_, ?_⟩ <;> simp <;> omega
            · rw [if_neg h5] at hfm
              by_cases h6 : r < 182
              · rw [if_pos h6] at hfm
                obtain ⟨hm, hd⟩ := Prod.mk.inj hfm
                subst hm; subst hd
                refine ⟨by norm_num, by norm_num, ?_, ?_, ?_, ?_⟩ <;> simp <;> omega
              · rw [if_neg h6] at hfm
                by_cases h7 : r < 213
                · rw [if_pos h7] at hfm
                  obtain ⟨hm, hd⟩ := Prod.mk.inj hfm
                  subst hm; subst hd
                  refine ⟨by norm_num, by norm_num, ?_, ?_, ?_, ?_⟩ <;> simp <;> omega
                · rw [if_neg h7] at hfm
                  by_cases h8 : r < 244
                  · rw [if_pos h8] at hfm
                    obtain ⟨hm, hd⟩ := Prod.mk.inj hfm
                    subst hm; subst hd
                    refine ⟨by norm_num, by norm_num, ?_, ?_, ?_, ?_⟩ <;> simp <;> omega
                  · rw [if_neg h8] at hfm
                    by_cases h9 : r < 274
                    · rw [if_pos h9] at hfm
                      obtain ⟨hm, hd⟩ := Prod.mk.inj hfm
                      subst hm; subst hd
                      refine ⟨by norm_num, by norm_num, ?_, ?_, ?_, ?_⟩ <;> simp <;> omega
                    · rw [if_neg h9] at hfm
                      by_cases h10 : r < 305
                      · rw [if_pos h10] at hfm
                        obtain ⟨hm, hd⟩ := Prod.mk.inj hfm
                        subst hm; subst hd
                        refine ⟨by norm_num, by norm_num, ?_, ?_, ?_, ?_⟩ <;> simp <;> omega
                      · rw [if_neg h10] at hfm
                        by_cases h11 : r < 335
                        · rw [if_pos h11] at hfm
                          obtain ⟨hm, hd⟩ := Prod.mk.inj hfm
                          subst hm; subst hd
                          refine ⟨by norm_num, by norm_num, ?_, ?_, ?_, ?_⟩ <;> simp <;> omega
                        · rw [if_neg h11] at hfm
                          obtain ⟨hm, hd⟩ := Prod.mk.inj hfm
                          subst hm; subst hd
                          refine ⟨by norm_num, by norm_num, ?_, ?_, ?_, ?_⟩ <;> simp <;> omega

theorem epochToCivilUTC_spec (t : Int) (h1 : minEpoch ≤ t) (h2 : t ≤ maxEpoch) :
    ∃ c, epochToCivilUTC t = some c ∧ epochUTC c = t ∧ civilValid c := by
  have hnn : (0 : Int) ≤ t + epochShift := by
    unfold minEpoch at h1
    unfold epochShift
    omega
  have hcast : (((t + epochShift).toNat : Nat) : Int) = t + epochShift :=
    Int.toNat_of_nonneg hnn
  set n : Nat := (t + epochShift).toNat with hn
  have hcastL : ((n : Nat) : Int) = t + 62135596800 := by
    rw [hcast]
    unfold epochShift
    rfl
  have hnb : n ≤ 315537897599 := by
    have h3 : t + epochShift ≤ 315537897599 := by
      unfold maxEpoch at h2
      unfold epochShift
      omega
    omega
  have hN : n / 86400 < 3652059 := by omega
  obtain ⟨hy1, hy2, hy3, hy4⟩ := findYear_spec (n / 86400) hN
  set y := findYear (n / 86400) with hy
  set r := n / 86400 - daysBeforeYear y with hr
  have hrlt : r < daysInYear y := by
    have := daysBeforeYear_succ y hy1
    omega
  obtain ⟨hm1, hm2, hm3, hm4, hm5, hm6⟩ := findMonth_spec y r hrlt
  refine ⟨⟨y, (findMonth y r).1, (findMonth y r).2 + 1,
          n % 86400 / 3600, n % 86400 % 3600 / 60, n % 86400 % 60⟩, ?_, ?_, ?_⟩
  · unfold epochToCivilUTC
    rw [if_neg (by
      simp only [minEpoch, maxEpoch] at h1 h2 ⊢
      omega)]
  · have hday : daysBeforeYear y + daysBeforeMonth y (findMonth y r).1
        + ((findMonth y r).2 + 1 - 1) = n / 86400 := by omega
    unfold epochUTC ordinalDay epochShift
    simp only []
    rw [hday]
    have htod : 3600 * (n % 86400 / 3600) + 60 * (n % 86400 % 3600 / 60) + n % 86400 % 60
        = n % 86400 := by omega
    have hnN : 86400 * (n / 86400) + n % 86400 = n := by omega
    push_cast
    omega
  · unfold civilValid
    simp only []
    refine ⟨hy1, hy2, hm1, hm2, by omega, hm6, by omega, by omega, by omega⟩


/-! ### C9: the save/load cache round-trip

`isoformatBerlin` renders each instant as `YYYY-MM-DDTHH:MM:SS+HH:MM`;
`loadInstant` parses that shape back and subtracts the offset, recovering
the instant exactly whenever the instant (shifted into Berlin wall time)
lies inside `datetime`'s representable range. -/

theorem digitVal_digitChar (d : Nat) (h : d < 10) :
    digitVal (digitChar d) = some d := by
  interval_cases d <;> decide

theorem readDigits_zero (l : List Char) : readDigits 0 l = some (0, l) := rfl

theorem readDigits_succ (k : Nat) (c : Char) (l : List Char) :
    readDigits (k + 1) (c :: l) =
      match digitVal c with
      | some d => (readDigits k l).map (fun p => (d * 10 ^ k + p.1, p.2))
      | none => none := rfl

theorem readDigits_cons_of (k : Nat) (c : Char) (d : Nat) (l : List Char)
    (h : digitVal c = some d) :
    readDigits (k + 1) (c :: l) = (readDigits k l).map (fun p => (d * 10 ^ k + p.1, p.2)) := by
  rw [readDigits_succ, h]

theorem readDigits_pad2 (n : Nat) (rest : List Char) :
    readDigits 2 (pad2 n ++ rest) = some (n % 100, rest) := by
  rw [show pad2 n ++ rest = digitChar (n / 10 % 10) :: digitChar (n % 10) :: rest from rfl,
      readDigits_cons_of 1 _ _ _ (digitVal_digitChar _ (Nat.mod_lt _ (by norm_num))),
      readDigits_cons_of 0 _ _ _ (digitVal_digitChar _ (Nat.mod_lt _ (by norm_num))),
      readDigits_zero]
  simp only [Option.map_some', pow_one, pow_zero, mul_one, Nat.add_zero]
  rw [show n / 10 % 10 * 10 + n % 10 = n % 100 from by omega]

theorem readDigits_pad4 (n : Nat) (rest : List Char) :
    readDigits 4 (pad4 n ++ rest) = some (n % 10000, rest) := by
  rw [show pad4 n ++ rest = digitChar (n / 1000 % 10) :: digitChar (n / 100 % 10) ::
        digitChar (n / 10 % 10) :: digitChar (n % 10) :: rest from rfl,
      readDigits_cons_of 3 _ _ _ (digitVal_digitChar _ (Nat.mod_lt _ (by norm_num))),
      readDigits_cons_of 2 _ _ _ (digitVal_digitChar _ (Nat.mod_lt _ (by norm_num))),
      readDigits_cons_of 1 _ _ _ (digitVal_digitChar _ (Nat.mod_lt _ (by norm_num))),
      readDigits_cons_of 0 _ _ _ (digitVal_digitChar _ (Nat.mod_lt _ (by norm_num))),
      readDigits_zero]
  simp only [Option.map_some', pow_succ, pow_one, pow_zero, mul_one, Nat.add_zero, one_mul]
  rw [show n / 1000 % 10 * (10 * 10 * 10) + (n / 100 % 10 * (10 * 10) +
        (n / 10 % 10 * 10 + n % 10)) = n % 10000 from by omega]

theorem expectCh_self (c : Char) (l : List Char) : expectCh c (c :: l) = some l := by
  show (if c = c then some l else none) = some l
  rw [if_pos rfl]

theorem readTime_fmt (h mi s : Nat) (rest : List Char) :
    readTime (pad2 h ++ ':' :: (pad2 mi ++ ':' :: (pad2 s ++ rest)))
      = some ((h % 100, mi % 100, s % 100), rest) := by
  unfold readTime
  rw [readDigits_pad2]
  simp only [Option.bind_eq_bind, Option.some_bind]
  rw [expectCh_self]
  simp only [Option.bind_eq_bind, Option.some_bind]
  rw [readDigits_pad2]
  simp only [Option.bind_eq_bind, Option.some_bind]
  rw [readDigits_pad2]
  simp only [Option.bind_eq_bind, Option.some_bind, Option.pure_def]

theorem readIsoDatetime_fmt (y mo d h mi s : Nat) (c0 : Char) (ts : List Char) (off : Int)
    (hy : y < 10000) (hmo : mo < 100) (hd : d < 100) (hh : h < 100) (hmi : mi < 100)
    (hs : s < 100) (htail : readOffset (c0 :: ts) = some (off, []))
    (hvalid : civilValid ⟨y, mo, d, h, mi, s⟩) :
    readIsoDatetime (pad4 y ++ '-' :: (pad2 mo ++ '-' :: (pad2 d ++ 'T' ::
      (pad2 h ++ ':' :: (pad2 mi ++ ':' :: (pad2 s ++ c0 :: ts))))))
      = some (⟨y, mo, d, h, mi, s⟩, some off) := by
  unfold readIsoDatetime
  rw [readDigits_pad4]
  simp only [Option.bind_eq_bind, Option.some_bind]
  rw [expectCh_self]
  simp only [Option.bind_eq_bind, Option.some_bind]
  rw [readDigits_pad2]
  simp only [Option.bind_eq_bind, Option.some_bind]
  rw [expectCh_self]
  simp only [Option.bind_eq_bind, Option.some_bind]
  rw [readDigits_pad2]
  simp only [Option.bind_eq_bind, Option.some_bind]
  rw [readTime_fmt]
  simp only [Option.bind_eq_bind, Option.some_bind]
  rw [htail]
  simp only [Option.map_some', Option.some_bind]
  rw [Nat.mod_eq_of_lt hy, Nat.mod_eq_of_lt hmo, Nat.mod_eq_of_lt hd,
      Nat.mod_eq_of_lt hh, Nat.mod_eq_of_lt hmi, Nat.mod_eq_of_lt hs]
  rw [if_pos trivial, if_pos hvalid]
  rfl

theorem utcOffset_cases (t : Int) : utcOffset t = 3600 ∨ utcOffset t = 7200 := by
  unfold utcOffset
  by_cases h : inDST t = true
  · rw [if_pos h]; right; rfl
  · rw [if_neg h]; left; rfl

theorem daysInMonth_le_31 (y m : Nat) : daysInMonth y m ≤ 31 := by
  unfold daysInMonth
  split_ifs <;> omega

theorem loadInstant_isoformat (t : Int) (h1 : minEpoch ≤ t) (h2 : t + 7200 ≤ maxEpoch) :
    loadInstant (isoformatBerlin t) = some t := by
  have hoff := utcOffset_cases t
  have hb1 : minEpoch ≤ t + utcOffset t := by
    rcases hoff with h | h <;> rw [h] <;> omega
  have hb2 : t + utcOffset t ≤ maxEpoch := by
    rcases hoff with h | h <;> rw [h] <;> omega
  obtain ⟨c, hc, hcUTC, hcValid⟩ := epochToCivilUTC_spec (t + utcOffset t) hb1 hb2
  have hberlin : toBerlinCivil t = some c := hc
  have hvalid' : civilValid ⟨c.year, c.month, c.day, c.hour, c.minute, c.second⟩ := hcValid
  have hdm := daysInMonth_le_31 c.year c.month
  obtain ⟨hvy1, hvy2, hvm1, hvm2, hvd1, hvd2, hvh, hvmi, hvs⟩ := hcValid
  unfold loadInstant isoformatBerlin
  rw [hberlin]
  rcases hoff with h | h
  · rw [h]
    have hcUTC' : epochUTC c = t + 3600 := by rw [hcUTC, h]
    simp only [Option.getD_some, List.append_assoc, List.cons_append]
    rw [show pad2 (((3600 : Int)) / 3600).toNat = ['0', '1'] from rfl,
        show pad2 ((((3600 : Int)) % 3600) / 60).toNat = ['0', '0'] from rfl]
    rw [readIsoDatetime_fmt c.year c.month c.day c.hour c.minute c.second '+'
        (['0', '1'] ++ ':' :: ['0', '0']) 3600
        (by omega) (by omega) (by omega) (by omega) (by omega) (by omega)
        (by decide) hvalid']
    show some (epochUTC ⟨c.year, c.month, c.day, c.hour, c.minute, c.second⟩ - 3600) = some t
    rw [show epochUTC ⟨c.year, c.month, c.day, c.hour, c.minute, c.second⟩ = epochUTC c from rfl,
        hcUTC']
    rw [show t + 3600 - 3600 = t from by omega]
  · rw [h]
    have hcUTC' : epochUTC c = t + 7200 := by rw [hcUTC, h]
    simp only [Option.getD_some, List.append_assoc, List.cons_append]
    rw [show pad2 (((7200 : Int)) / 3600).toNat = ['0', '2'] from rfl,
        show pad2 ((((7200 : Int)) % 3600) / 60).toNat = ['0', '0'] from rfl]
    rw [readIsoDatetime_fmt c.year c.month c.day c.hour c.minute c.second '+'
        (['0', '2'] ++ ':' :: ['0', '0']) 7200
        (by omega) (by omega) (by omega) (by omega) (by omega) (by omega)
        (by decide) hvalid']
    show some (epochUTC ⟨c.year, c.month, c.day, c.hour, c.minute, c.second⟩ - 7200) = some t
    rw [show epochUTC ⟨c.year, c.month, c.day, c.hour, c.minute, c.second⟩ = epochUTC c from rfl,
        hcUTC']
    rw [show t + 7200 - 7200 = t from by omega]

theorem loadStored_storedOfEvent (e : CourseEvent)
    (hs1 : minEpoch ≤ e.start) (hs2 : e.start + 7200 ≤ maxEpoch)
    (he1 : minEpoch ≤ e.end_) (he2 : e.end_ + 7200 ≤ maxEpoch) :
    loadStored (storedOfEvent e) = some e := by
  unfold loadStored storedOfEvent
  simp only []
  rw [loadInstant_isoformat e.start hs1 hs2]
  simp only [Option.bind_eq_bind, Option.some_bind]
  rw [loadInstant_isoformat e.end_ he1 he2]
  simp only [Option.bind_eq_bind, Option.some_bind]
  rfl

/-- C9: saving then loading the cache is a round-trip.  For every event
list whose instants lie in `datetime`'s range, every rendered calendar
text and every prior disk state, `load_cache` after
`save_cache events ics` returns exactly the saved calendar text and
exactly the saved event list (ids, titles, optional fields, and the
start/end instants re-normalised to Europe/Berlin are all preserved). -/
theorem c9_cache_roundtrip (events : List CourseEvent) (ics : String) (d : Disk)
    (hr : ∀ e ∈ events, minEpoch ≤ e.start ∧ e.start + 7200 ≤ maxEpoch ∧
          minEpoch ≤ e.end_ ∧ e.end_ + 7200 ≤ maxEpoch) :
    load_cache (save_cache events ics d) = (some ics, some events) := by
  unfold save_cache load_cache
  simp only []
  have hmap : (events.map storedOfEvent).mapM loadStored = some events := by
    induction events with
    | nil => rfl
    | cons e es ih =>
      have he := hr e (List.mem_cons_self e es)
      have ihs : (es.map storedOfEvent).mapM loadStored = some es :=
        ih (fun x hx => hr x (List.mem_cons_of_mem e hx))
      simp only [List.map_cons, List.mapM_cons,
        loadStored_storedOfEvent e he.1 he.2.1 he.2.2.1 he.2.2.2, ihs,
        Option.bind_eq_bind, Option.some_bind, Option.pure_def]
  rw [hmap]

/-- A concrete cache round-trip exercising `c9_cache_roundtrip`:
one event (instant 1717227000 = 2024-06-01T09:30:00+02:00) with all
optional fields set, saved over a non-empty prior disk state. -/
def c9DemoEvent : CourseEvent :=
  { id := "42", title := "Yoga Flow", start := 1717227000, end_ := 1717230600,
    location := some "Studio 1", instructor := some "Alex",
    room := some "R2", description := some "Bring a mat" }

def c9DemoDisk : Disk := ⟨some "OLD", some []⟩

theorem c9_cache_roundtrip_witness :
    load_cache (save_cache [c9DemoEvent] "BEGIN:VCALENDAR" c9DemoDisk)
      = (some "BEGIN:VCALENDAR", some [c9DemoEvent]) :=
  c9_cache_roundtrip [c9DemoEvent] "BEGIN:VCALENDAR" c9DemoDisk (by decide)

end Fitx
